import Mathlib

/-!
# Shallow embedding of `halmos/config.py`

This file embeds the layered-configuration engine of `src/halmos/config.py`:
the value codecs (`ParseTimeout`, `ParseCSVInt`, `ParseCSVTraceEvent`,
`ParseErrorCodes`, `ParseArrayLengths`), the immutable layer chain with its
precedence resolver (`Config.value_with_source`), layer construction
(`Config.with_overrides`), the derived solver-command resolution
(`Config.resolved_solver_command`), the TOML table-structure validation
(`TomlParser.parse_dict`) and the config-file locator (`resolve_config_files`).

Python strings are modelled as `List Char`; Python `int` as `ℤ`/`ℕ`;
Python `float` durations as `ℚ` (every value appearing in the statements is
exactly representable, and the arithmetic performed on it — multiplication by
1000, truncation, comparison with 1 — is exact for those values, so `ℚ` is a
faithful model on the domains used); Python `set[int]` as `Finset ℤ`;
Python `dict` as an insertion-ordered association list with last-write-wins
update; raised exceptions and `sys.exit` as `Except` results.
-/

/-- Python strings, modelled as lists of characters. -/
abbrev Str := List Char

/-- The whitespace characters recognised by Python's `str.strip`/`str.split`.
(`\x0b` is vertical tab, `\x0c` is form feed.) -/
def pyIsSpace (c : Char) : Bool :=
  c = ' ' || c = '\t' || c = '\n' || c = '\r' || c = '\x0b' || c = '\x0c'

/-- ASCII decimal digit test (`0`–`9`). -/
def isDigitCh (c : Char) : Bool := 48 ≤ c.toNat && c.toNat ≤ 57

/-- Split a string at every character satisfying `p`, keeping empty segments:
the model of Python `str.split(sep)` (for `p := (· == sep)`).
`splitP p [] = [[]]`, matching `"".split(sep) == [""]`. -/
def splitP (p : Char → Bool) : Str → List Str
  | [] => [[]]
  | c :: rest =>
    if p c then [] :: splitP p rest
    else
      match splitP p rest with
      | [] => [[c]]
      | t :: ts => (c :: t) :: ts

/-- Python `values.split(sep)` for a one-character separator. -/
def splitSep (sep : Char) (s : Str) : List Str := splitP (fun c => c == sep) s

/-- Python `str.split()` with no argument: split on whitespace runs,
dropping empty tokens. -/
def pySplitWs (s : Str) : List Str := (splitP pyIsSpace s).filter (· ≠ [])

/-- Python `s.split()[-1]`: the last whitespace-delimited word. -/
def lastWord (s : Str) : Str := (pySplitWs s).getLastD []

/-- Python `str.strip()`: remove leading and trailing whitespace. -/
def strip (s : Str) : Str :=
  ((s.dropWhile pyIsSpace).reverse.dropWhile pyIsSpace).reverse

/-- Python `sep.join(parts)` for list-of-characters separators. -/
def joinSep (sep : Str) : List Str → Str
  | [] => []
  | [t] => t
  | t :: ts => t ++ sep ++ joinSep sep ts

/-- The function `parse_csv` from `config.py`: split a CSV string on `,`, strip each
token and keep only the non-empty ones. -/
def parse_csv (s : Str) : List Str :=
  ((splitSep ',' s).map strip).filter (· ≠ [])

/-! ## Decimal and hexadecimal rendering and parsing -/

/-- The ASCII character for a decimal digit value. -/
def digitChar (d : ℕ) : Char := Char.ofNat (48 + d)

/-- Decimal rendering of a natural number, the model of Python `str(n)`
for `n ≥ 0`. -/
def natToDec (n : ℕ) : Str :=
  if _h : n < 10 then [digitChar n]
  else natToDec (n / 10) ++ [digitChar (n % 10)]
  decreasing_by exact Nat.div_lt_self (by omega) (by omega)

/-- The numeric value of a string of decimal digits. -/
def decVal (s : Str) : ℕ := s.foldl (fun acc c => acc * 10 + (c.toNat - 48)) 0

/-- Checked decimal parsing: all characters must be digits and the string
must be non-empty. -/
def decToNat (s : Str) : Option ℕ :=
  if s ≠ [] ∧ s.all isDigitCh then some (decVal s) else none

/-- Python `str(n)` for an `int` value: optional minus sign and digits. -/
def intToDec (n : ℤ) : Str :=
  if n < 0 then '-' :: natToDec (-n).toNat else natToDec n.toNat

/-- Python `int(x)` on an already-stripped token: optional sign, then a
non-empty run of decimal digits.  (Underscore digit separators are not
modelled; no input in this development contains them.) -/
def pyIntDec (s : Str) : Option ℤ :=
  match s with
  | [] => none
  | c :: rest =>
    if c = '-' then (decToNat rest).map (fun n : ℕ => -(n : ℤ))
    else if c = '+' then (decToNat rest).map (fun n : ℕ => (n : ℤ))
    else (decToNat (c :: rest)).map (fun n : ℕ => (n : ℤ))

/-- The ASCII character for a hexadecimal digit value (lowercase). -/
def hexDigitChar (d : ℕ) : Char :=
  if d < 10 then Char.ofNat (48 + d) else Char.ofNat (87 + d)

/-- Lowercase hexadecimal rendering of a natural number (no prefix). -/
def natToHex (n : ℕ) : Str :=
  if _h : n < 16 then [hexDigitChar n]
  else natToHex (n / 16) ++ [hexDigitChar (n % 16)]
  decreasing_by exact Nat.div_lt_self (by omega) (by omega)

/-- Python `f"{n:02x}"` for `n ≥ 0`: hexadecimal, zero-padded to width 2. -/
def hex02 (n : ℕ) : Str :=
  let h := natToHex n
  if h.length < 2 then '0' :: h else h

/-- Python `f"{v:02x}"` for an `int` value: negative values render with a
minus sign (and are already at least two characters wide). -/
def fmt02x (v : ℤ) : Str :=
  if v < 0 then '-' :: natToHex (-v).toNat else hex02 v.toNat

/-- The value of one hexadecimal digit character (either case). -/
def hexDigitVal (c : Char) : Option ℕ :=
  if 48 ≤ c.toNat ∧ c.toNat ≤ 57 then some (c.toNat - 48)
  else if 97 ≤ c.toNat ∧ c.toNat ≤ 102 then some (c.toNat - 87)
  else if 65 ≤ c.toNat ∧ c.toNat ≤ 70 then some (c.toNat - 55)
  else none

/-- The numeric value of a string of hexadecimal digits. -/
def hexVal (s : Str) : ℕ :=
  s.foldl (fun acc c => acc * 16 + ((hexDigitVal c).getD 0)) 0

/-- Checked hexadecimal parsing of a digit run (no prefix). -/
def hexToNat (s : Str) : Option ℕ :=
  if s ≠ [] ∧ s.all (fun c => (hexDigitVal c).isSome) then some (hexVal s)
  else none

/-- Python `int(x, 0)` on an already-stripped unsigned token: `0x`/`0X`
prefix selects hexadecimal, otherwise decimal with leading zeros rejected
unless the whole token is zeros.  (The `0b`/`0o` prefixes and underscore
separators are not modelled; nothing in this development produces them.) -/
def pyIntBase0Core (s : Str) : Option ℕ :=
  match s with
  | '0' :: 'x' :: rest => hexToNat rest
  | '0' :: 'X' :: rest => hexToNat rest
  | _ =>
    if s ≠ [] ∧ s.all isDigitCh ∧ (s.head? = some '0' → s.all (· = '0')) then
      some (decVal s)
    else none

/-- Python `int(x, 0)`: optional sign followed by an unsigned token. -/
def pyIntBase0 (s : Str) : Option ℤ :=
  match s with
  | [] => none
  | c :: rest =>
    if c = '-' then (pyIntBase0Core rest).map (fun n : ℕ => -(n : ℤ))
    else if c = '+' then (pyIntBase0Core rest).map (fun n : ℕ => (n : ℤ))
    else (pyIntBase0Core (c :: rest)).map (fun n : ℕ => (n : ℤ))

/-! ### Round-trip lemmas for numeric rendering -/

theorem digitChar_toNat {d : ℕ} (h : d < 10) : (digitChar d).toNat = 48 + d := by
  interval_cases d <;> decide

theorem isDigitCh_digitChar {d : ℕ} (h : d < 10) : isDigitCh (digitChar d) = true := by
  interval_cases d <;> decide

theorem natToDec_ne_nil (n : ℕ) : natToDec n ≠ [] := by
  rw [natToDec]
  split <;> simp

theorem natToDec_all_digit (n : ℕ) : ∀ c ∈ natToDec n, isDigitCh c = true := by
  induction n using natToDec.induct with
  | case1 n h =>
    rw [natToDec, dif_pos h]
    intro c hc
    simp only [List.mem_singleton] at hc
    subst hc
    exact isDigitCh_digitChar h
  | case2 n h ih =>
    rw [natToDec, dif_neg h]
    intro c hc
    rcases List.mem_append.1 hc with h1 | h2
    · exact ih c h1
    · simp only [List.mem_singleton] at h2
      subst h2
      exact isDigitCh_digitChar (Nat.mod_lt _ (by omega))

theorem decVal_append (a b : Str) :
    decVal (a ++ b) = b.foldl (fun acc c => acc * 10 + (c.toNat - 48)) (decVal a) := by
  simp [decVal, List.foldl_append]

theorem decVal_natToDec (n : ℕ) : decVal (natToDec n) = n := by
  induction n using natToDec.induct with
  | case1 n h =>
    rw [natToDec, dif_pos h]
    simp [decVal, digitChar_toNat h]
  | case2 n h ih =>
    rw [natToDec, dif_neg h]
    rw [decVal_append, ih]
    simp only [List.foldl_cons, List.foldl_nil]
    rw [digitChar_toNat (Nat.mod_lt _ (by omega))]
    omega

theorem decToNat_natToDec (n : ℕ) : decToNat (natToDec n) = some n := by
  rw [decToNat, if_pos, decVal_natToDec]
  exact ⟨natToDec_ne_nil n, List.all_eq_true.2 (natToDec_all_digit n)⟩

/-- A digit character is distinct from any character outside the digit range. -/
theorem isDigitCh_ne {c : Char} (h : isDigitCh c = true) {d : Char}
    (hd : d.toNat < 48 ∨ 57 < d.toNat) : c ≠ d := by
  intro hc
  subst hc
  simp only [isDigitCh, Bool.and_eq_true, decide_eq_true_eq] at h
  omega

/-- Digit characters are not whitespace. -/
theorem pyIsSpace_of_digit {c : Char} (h : isDigitCh c = true) :
    pyIsSpace c = false := by
  simp only [pyIsSpace, Bool.or_eq_false_iff, decide_eq_false_iff_not]
  refine ⟨⟨⟨⟨⟨?_, ?_⟩, ?_⟩, ?_⟩, ?_⟩, ?_⟩ <;> exact isDigitCh_ne h (by decide)

/-- Digits are not sign characters, separators or grammar delimiters. -/
theorem isDigitCh_spec {c : Char} (h : isDigitCh c = true) :
    c ≠ '-' ∧ c ≠ '+' ∧ c ≠ ',' ∧ pyIsSpace c = false ∧ c ≠ '=' ∧
      c ≠ '\x7b' ∧ c ≠ '\x7d' ∧ c ≠ '*' :=
  ⟨isDigitCh_ne h (by decide), isDigitCh_ne h (by decide), isDigitCh_ne h (by decide),
   pyIsSpace_of_digit h, isDigitCh_ne h (by decide), isDigitCh_ne h (by decide),
   isDigitCh_ne h (by decide), isDigitCh_ne h (by decide)⟩

theorem pyIntDec_intToDec (n : ℤ) : pyIntDec (intToDec n) = some n := by
  by_cases hn : n < 0
  · rw [intToDec, if_pos hn]
    simp only [pyIntDec, if_pos rfl, decToNat_natToDec, Option.map_some']
    rw [Int.toNat_of_nonneg (by omega)]
    simp
  · rw [intToDec, if_neg hn]
    obtain ⟨c, t, hct⟩ : ∃ c t, natToDec n.toNat = c :: t := by
      cases h : natToDec n.toNat with
      | nil => exact absurd h (natToDec_ne_nil _)
      | cons c t => exact ⟨c, t, rfl⟩
    have hd : isDigitCh c = true := by
      have := natToDec_all_digit n.toNat c
      rw [hct] at this
      exact this (List.mem_cons_self _ _)
    obtain ⟨h1, h2, -⟩ := isDigitCh_spec hd
    rw [hct]
    simp only [pyIntDec, if_neg h1, if_neg h2]
    rw [← hct, decToNat_natToDec]
    simp only [Option.map_some']
    rw [Int.toNat_of_nonneg (by omega)]

theorem hexDigitVal_hexDigitChar {d : ℕ} (h : d < 16) :
    hexDigitVal (hexDigitChar d) = some d := by
  interval_cases d <;> decide

theorem natToHex_ne_nil (n : ℕ) : natToHex n ≠ [] := by
  rw [natToHex]
  split <;> simp

theorem natToHex_all_hex (n : ℕ) : ∀ c ∈ natToHex n, (hexDigitVal c).isSome = true := by
  induction n using natToHex.induct with
  | case1 n h =>
    rw [natToHex, dif_pos h]
    intro c hc
    simp only [List.mem_singleton] at hc
    subst hc
    rw [hexDigitVal_hexDigitChar h]
    rfl
  | case2 n h ih =>
    rw [natToHex, dif_neg h]
    intro c hc
    rcases List.mem_append.1 hc with h1 | h2
    · exact ih c h1
    · simp only [List.mem_singleton] at h2
      subst h2
      rw [hexDigitVal_hexDigitChar (Nat.mod_lt _ (by omega))]
      rfl

theorem hexVal_append (a b : Str) :
    hexVal (a ++ b) = b.foldl (fun acc c => acc * 16 + ((hexDigitVal c).getD 0)) (hexVal a) := by
  simp [hexVal, List.foldl_append]

theorem hexVal_natToHex (n : ℕ) : hexVal (natToHex n) = n := by
  induction n using natToHex.induct with
  | case1 n h =>
    rw [natToHex, dif_pos h]
    simp [hexVal, hexDigitVal_hexDigitChar h]
  | case2 n h ih =>
    rw [natToHex, dif_neg h]
    rw [hexVal_append, ih]
    simp only [List.foldl_cons, List.foldl_nil]
    rw [hexDigitVal_hexDigitChar (Nat.mod_lt _ (by omega))]
    simp only [Option.getD_some]
    omega

theorem hexToNat_hex02 (n : ℕ) : hexToNat (hex02 n) = some n := by
  have hall : ∀ c ∈ natToHex n, (hexDigitVal c).isSome = true := natToHex_all_hex n
  rw [hex02]
  by_cases hl : (natToHex n).length < 2
  · simp only [hl, if_pos]
    rw [hexToNat, if_pos]
    · show some (hexVal ('0' :: natToHex n)) = some n
      have : hexVal ('0' :: natToHex n) = hexVal (natToHex n) := by
        simp [hexVal, List.foldl_cons, hexDigitVal]
      rw [this, hexVal_natToHex]
    · constructor
      · simp
      · rw [List.all_eq_true]
        intro c hc
        rcases List.mem_cons.1 hc with h1 | h2
        · subst h1; decide
        · exact hall c h2
  · simp only [hl, if_neg, if_false]
    rw [hexToNat, if_pos, hexVal_natToHex]
    exact ⟨natToHex_ne_nil n, List.all_eq_true.2 hall⟩

/-- A hexadecimal digit character is distinct from any character outside the
hex-digit ranges. -/
theorem hexCh_ne {c : Char} (h : (hexDigitVal c).isSome = true) {d : Char}
    (hd : (d.toNat < 48 ∨ 57 < d.toNat) ∧ (d.toNat < 97 ∨ 102 < d.toNat) ∧
      (d.toNat < 65 ∨ 70 < d.toNat)) : c ≠ d := by
  intro hc
  subst hc
  rw [hexDigitVal] at h
  split at h
  · omega
  · split at h
    · omega
    · split at h
      · omega
      · simp at h

theorem pyIsSpace_of_hexCh {c : Char} (h : (hexDigitVal c).isSome = true) :
    pyIsSpace c = false := by
  simp only [pyIsSpace, Bool.or_eq_false_iff, decide_eq_false_iff_not]
  refine ⟨⟨⟨⟨⟨?_, ?_⟩, ?_⟩, ?_⟩, ?_⟩, ?_⟩ <;> exact hexCh_ne h (by decide)

/-! ### Lemmas about splitting, stripping and joining -/

theorem splitP_ne_nil (p : Char → Bool) (s : Str) : splitP p s ≠ [] := by
  cases s with
  | nil => simp [splitP]
  | cons c rest =>
    rw [splitP]
    split
    · simp
    · split <;> simp

theorem splitP_nosep (p : Char → Bool) (s : Str) (h : ∀ c ∈ s, p c = false) :
    splitP p s = [s] := by
  induction s with
  | nil => rfl
  | cons c rest ih =>
    rw [splitP, if_neg]
    · rw [ih (fun c hc => h c (List.mem_cons_of_mem _ hc))]
    · simp [h c (List.mem_cons_self _ _)]

theorem splitP_append_sep (p : Char → Bool) (xs ys : Str) {c : Char}
    (hc : p c = true) : splitP p (xs ++ c :: ys) = splitP p xs ++ splitP p ys := by
  induction xs with
  | nil =>
    simp only [List.nil_append]
    simp [splitP, hc]
  | cons x xs ih =>
    simp only [List.cons_append]
    rw [splitP, splitP]
    by_cases hx : p x = true
    · rw [if_pos hx, if_pos hx, ih]
      rfl
    · rw [if_neg hx, if_neg hx, ih]
      obtain ⟨t, ts, hts⟩ : ∃ t ts, splitP p xs = t :: ts := by
        cases h : splitP p xs with
        | nil => exact absurd h (splitP_ne_nil p xs)
        | cons t ts => exact ⟨t, ts, rfl⟩
      rw [hts]
      rfl

theorem dropWhile_eq_self_of (p : Char → Bool) (s : Str)
    (h : ∀ c ∈ s, p c = false) : s.dropWhile p = s := by
  cases s with
  | nil => rfl
  | cons c rest => simp [List.dropWhile, h c (List.mem_cons_self _ _)]

theorem strip_no_space (s : Str) (h : ∀ c ∈ s, pyIsSpace c = false) :
    strip s = s := by
  rw [strip, dropWhile_eq_self_of _ _ h, dropWhile_eq_self_of, List.reverse_reverse]
  intro c hc
  exact h c (List.mem_reverse.1 hc)

theorem joinSep_forall {P : Char → Prop} (sep : Str) (ts : List Str)
    (hsep : ∀ c ∈ sep, P c) (hts : ∀ t ∈ ts, ∀ c ∈ t, P c) :
    ∀ c ∈ joinSep sep ts, P c := by
  induction ts with
  | nil => simp [joinSep]
  | cons t rest ih =>
    cases rest with
    | nil =>
      intro c hc
      exact hts t (List.mem_cons_self _ _) c hc
    | cons u ts' =>
      intro c hc
      rw [show joinSep sep (t :: u :: ts') = t ++ sep ++ joinSep sep (u :: ts') from rfl] at hc
      rcases List.mem_append.1 hc with h1 | h2
      · rcases List.mem_append.1 h1 with h3 | h4
        · exact hts t (List.mem_cons_self _ _) c h3
        · exact hsep c h4
      · exact ih (fun t' ht' => hts t' (List.mem_cons_of_mem _ ht')) c h2

theorem splitSep_joinSep (sep : Char) (toks : List Str) (hne : toks ≠ [])
    (h : ∀ t ∈ toks, ∀ c ∈ t, (c == sep) = false) :
    splitSep sep (joinSep [sep] toks) = toks := by
  induction toks with
  | nil => exact absurd rfl hne
  | cons t rest ih =>
    cases rest with
    | nil => exact splitP_nosep _ _ (h t (List.mem_cons_self _ _))
    | cons u ts' =>
      have hj : joinSep [sep] (t :: u :: ts') = t ++ sep :: joinSep [sep] (u :: ts') := by
        show t ++ [sep] ++ joinSep [sep] (u :: ts') = _
        simp
      have h1 : splitP (fun c => c == sep) t = [t] :=
        splitP_nosep _ _ (h t (List.mem_cons_self _ _))
      have h2 : splitP (fun c => c == sep) (joinSep [sep] (u :: ts')) = u :: ts' :=
        ih (by simp) (fun t' ht' => h t' (List.mem_cons_of_mem _ ht'))
      rw [hj, splitSep, splitP_append_sep _ _ _ (by simp), h1, h2]
      rfl

/-- Joining non-empty comma-free whitespace-free tokens with `,` and re-parsing
with `parse_csv` recovers the tokens. -/
theorem parse_csv_joinSep (toks : List Str) (hne : toks ≠ [])
    (h1 : ∀ t ∈ toks, t ≠ [])
    (h2 : ∀ t ∈ toks, ∀ c ∈ t, c ≠ ',' ∧ pyIsSpace c = false) :
    parse_csv (joinSep [','] toks) = toks := by
  rw [parse_csv, splitSep_joinSep ',' toks hne]
  · have hmap : toks.map strip = toks := by
      have := List.map_congr_left (l := toks) (f := strip) (g := id)
        (fun t ht => strip_no_space t (fun c hc => (h2 t ht c hc).2))
      simpa using this
    rw [hmap]
    apply List.filter_eq_self.2
    intro t ht
    simpa using h1 t ht
  · intro t ht c hc
    simpa using (h2 t ht c hc).1

/-! ## `ensure_non_empty` and the value codecs -/

/-- The `ValueError` message raised by `ensure_non_empty`. -/
def nonEmptyMsg : Str := "required a non-empty list".toList

/-- The function `ensure_non_empty` from `config.py`: raise `ValueError` on an empty
collection, return it unchanged otherwise. -/
def ensure_non_empty (l : List α) : Except Str (List α) :=
  if l.isEmpty then .error nonEmptyMsg else .ok l

/-- Generic `ValueError` for a token `int()` cannot parse.  The exact Python
message text (`invalid literal for int() ...`) is not load-bearing for any
claim; only the fact that a `ValueError` is raised is. -/
def invalidIntMsg : Str := "invalid literal for int()".toList

/-- Apply `f` to each element left-to-right, aborting on the first failure:
the model of a Python comprehension or generator whose body may raise. -/
def pyMapRaise (f : α → Option β) : List α → Option (List β)
  | [] => some []
  | a :: l =>
    match f a with
    | none => none
    | some b =>
      match pyMapRaise f l with
      | none => none
      | some bs => some (b :: bs)

/-- The enum `TraceEvent` from `config.py`. -/
inductive TraceEvent
  | LOG
  | SSTORE
  | SLOAD
deriving DecidableEq

/-- The `value` of a `TraceEvent` enum member. -/
def TraceEvent.value : TraceEvent → Str
  | .LOG => "LOG".toList
  | .SSTORE => "SSTORE".toList
  | .SLOAD => "SLOAD".toList

/-- Model of `TraceEvent(x)`: look a string up among the enum values. -/
def TraceEvent.ofStr (s : Str) : Option TraceEvent :=
  if s = "LOG".toList then some .LOG
  else if s = "SSTORE".toList then some .SSTORE
  else if s = "SLOAD".toList then some .SLOAD
  else none

namespace ParseCSVTraceEvent

/-- Model of `ParseCSVTraceEvent.parse`: parse a CSV of trace-event tags; an empty
list is allowed, an unknown tag raises `ValueError` listing the valid tags. -/
def parse (values : Str) : Except Str (List TraceEvent) :=
  match pyMapRaise TraceEvent.ofStr (parse_csv values) with
  | some l => .ok l
  | none =>
    .error ("the list of valid trace events is: ".toList ++
      joinSep ", ".toList [TraceEvent.LOG.value, TraceEvent.SSTORE.value,
        TraceEvent.SLOAD.value])

/-- Model of `ParseCSVTraceEvent.unparse`: join the tag values with commas. -/
def unparse (values : List TraceEvent) : Str :=
  joinSep [','] (values.map TraceEvent.value)

end ParseCSVTraceEvent

namespace ParseCSVInt

/-- Model of `ParseCSVInt.parse`: parse a CSV of decimal integers; the resulting list
must be non-empty. -/
def parse (values : Str) : Except Str (List ℤ) :=
  match pyMapRaise pyIntDec (parse_csv values) with
  | none => .error invalidIntMsg
  | some l => ensure_non_empty l

/-- Model of `ParseCSVInt.unparse`: join the decimal renderings with commas. -/
def unparse (values : List ℤ) : Str := joinSep [','] (values.map intToDec)

end ParseCSVInt

namespace ParseErrorCodes

/-- Model of `ParseErrorCodes.parse`: `"*"` (after stripping) denotes the empty set
("match any"); otherwise parse a CSV of integers in any base (`int(x, 0)`)
and require the resulting set to be non-empty. -/
def parse (values : Str) : Except Str (Finset ℤ) :=
  let v := strip values
  if v = ['*'] then .ok ∅
  else
    match pyMapRaise pyIntBase0 (parse_csv v) with
    | none => .error invalidIntMsg
    | some ints =>
      if ints.toFinset = ∅ then .error nonEmptyMsg else .ok ints.toFinset

/-- Model of `ParseErrorCodes.unparse`: the empty set renders as `"*"`, otherwise the
elements render as `0x`-prefixed width-2 hex, comma-separated.  A Python
`set` iterates in an unspecified order; the model enumerates the set in
ascending order (the parse result is order-independent). -/
def unparse (values : Finset ℤ) : Str :=
  if values = ∅ then ['*']
  else joinSep [','] ((values.sort (· ≤ ·)).map (fun v => '0' :: 'x' :: fmt02x v))

end ParseErrorCodes

/-- Python `int(x)` truncation toward zero, on exact rationals. -/
def pyTrunc (q : ℚ) : ℤ := if 0 ≤ q then ⌊q⌋ else -⌊-q⌋

/-- Modelled from the spec: `halmos.utils.parse_time` is imported by
`config.py` but its definition is not among the provided sources.  Per the
spec it is "an external time-string parser `parseDuration(text, defaultUnit)
-> numeric seconds`" where a number may carry a unit suffix (`ms`, `s`, `m`,
`h`), the default unit (used by `ParseTimeout`) is milliseconds, and
`parse("5s") == 5` seconds-equivalent.  Only nonnegative integer counts are
modelled, which covers every rendering `ParseTimeout.unparse` emits. -/
def parse_time (s : Str) : Option ℚ :=
  if (strip s).takeWhile isDigitCh = [] then none
  else if (strip s).dropWhile isDigitCh = [] then
    some ((decVal ((strip s).takeWhile isDigitCh) : ℕ) / 1000)
  else if (strip s).dropWhile isDigitCh = "ms".toList then
    some ((decVal ((strip s).takeWhile isDigitCh) : ℕ) / 1000)
  else if (strip s).dropWhile isDigitCh = "s".toList then
    some ((decVal ((strip s).takeWhile isDigitCh) : ℕ) : ℚ)
  else if (strip s).dropWhile isDigitCh = "m".toList then
    some (60 * ((decVal ((strip s).takeWhile isDigitCh) : ℕ) : ℚ))
  else if (strip s).dropWhile isDigitCh = "h".toList then
    some (3600 * ((decVal ((strip s).takeWhile isDigitCh) : ℕ) : ℚ))
  else none

namespace ParseTimeout

/-- Model of `ParseTimeout.parse`: `parse_time` with milliseconds as the default unit. -/
def parse (values : Str) : Option ℚ := parse_time values

/-- Model of `ParseTimeout.unparse`: values below one second render as integer
milliseconds, others as integer seconds — `int()` truncates either way. -/
def unparse (value : ℚ) : Str :=
  if value < 1 then intToDec (pyTrunc (value * 1000)) ++ "ms".toList
  else intToDec (pyTrunc value) ++ "s".toList

end ParseTimeout

/-! ## Python `dict` model (insertion-ordered, last write wins) -/

/-- Insert into an insertion-ordered association list with Python `dict`
semantics: an existing key keeps its position but takes the new value. -/
def pyDictInsert (d : List (Str × α)) (k : Str) (v : α) : List (Str × α) :=
  if d.any (fun kv => kv.1 == k) then
    d.map (fun kv => if kv.1 == k then (k, v) else kv)
  else d ++ [(k, v)]

/-- Build a Python `dict` from a sequence of key/value pairs. -/
def pyDictOf (l : List (Str × α)) : List (Str × α) :=
  l.foldl (fun d kv => pyDictInsert d kv.1 kv.2) []

/-- Python `d.get(k)` / `d[k]` lookup. -/
def pyDictGet (d : List (Str × α)) (k : Str) : Option α :=
  (d.find? (fun kv => kv.1 == k)).map (·.2)

/-! ## The array-lengths codec -/

/-- Characters allowed in an array-lengths name: everything except `=`, `,`
and the curly braces (the regex class is written over the whitespace-free
input). -/
def isALKeyChar (c : Char) : Bool :=
  !(c = '=' || c = ',' || c = '\x7b' || c = '\x7d')

/-- Digit-or-comma, the character class of a brace-enclosed size list. -/
def isDigitOrComma (c : Char) : Bool := isDigitCh c || c = ','

/-- Parse one `name=sizes` entry of the array-lengths grammar from the front
of a (whitespace-free) string: the name is a non-empty run of key
characters, `=`, then either a brace-enclosed non-empty run of
digits-and-commas or a non-empty run of digits.  Returns the name, the raw
size text, and the unconsumed remainder.  Together with `parseEntriesF`
this is the model of the full-string regex check
`^([^=,\x7b\x7d]+=(\x7b[\d,]+\x7d|\d+)(,|$))*$` and the entry extraction
`findall(([^=,\x7b\x7d]+)=(?:\x7b([\d,]+)\x7d|(\d+)))` in
`ParseArrayLengths.parse`. -/
def parseEntry (s : Str) : Option (Str × Str × Str) :=
  if s.takeWhile isALKeyChar = [] then none
  else
    match s.dropWhile isALKeyChar with
    | '=' :: s2 =>
      match s2 with
      | '\x7b' :: s3 =>
        if s3.takeWhile isDigitOrComma = [] then none
        else
          match s3.dropWhile isDigitOrComma with
          | '\x7d' :: s5 =>
            some (s.takeWhile isALKeyChar, s3.takeWhile isDigitOrComma, s5)
          | _ => none
      | _ =>
        if s2.takeWhile isDigitCh = [] then none
        else some (s.takeWhile isALKeyChar, s2.takeWhile isDigitCh,
          s2.dropWhile isDigitCh)
    | _ => none

/-- Parse a (whitespace-free) string as a `,`-separated sequence of
`name=sizes` entries, each followed by a comma or the end of the string;
the empty string is zero entries.  `fuel` bounds the recursion (each entry
consumes at least one character, so `s.length` is always enough). -/
def parseEntriesF : ℕ → Str → Option (List (Str × Str))
  | _, [] => some []
  | 0, _ => none
  | fuel + 1, s =>
    match parseEntry s with
    | none => none
    | some (k, inner, rest) =>
      match rest with
      | [] => some [(k, inner)]
      | ',' :: rest2 =>
        match parseEntriesF fuel rest2 with
        | none => none
        | some es => some ((k, inner) :: es)
      | _ => none

namespace ParseArrayLengths

/-- The `ValueError` message for a malformed array-lengths string. -/
def formatMsg (v : Str) : Str := "invalid array lengths format: ".toList ++ v

/-- The sizes of one entry: split the raw size text on commas, drop empty
pieces, read each digit run (`int(x)` cannot fail on a non-empty digit
run). -/
def entrySizes (inner : Str) : List ℤ :=
  (parse_csv inner).map (fun t => (decVal t : ℤ))

/-- Model of `ParseArrayLengths.parse`.  A falsy input (`None` or the empty string)
yields the empty dict.  Otherwise all whitespace is removed
(`"".join(values.split())`), the result must match the entry grammar
(else `ValueError: invalid array lengths format`), and each entry's sizes
must be non-empty (else `ensure_non_empty`'s `ValueError`); the entries are
collected into a dict. -/
def parse (values : Option Str) : Except Str (List (Str × List ℤ)) :=
  match values with
  | none => .ok []
  | some vs =>
    if vs = [] then .ok []
    else
      match parseEntriesF (vs.filter (fun c => !pyIsSpace c)).length
          (vs.filter (fun c => !pyIsSpace c)) with
      | none => .error (formatMsg (vs.filter (fun c => !pyIsSpace c)))
      | some entries =>
        if (entries.map (fun kv => (strip kv.1, entrySizes kv.2))).any
            (fun kv => kv.2.isEmpty) then .error nonEmptyMsg
        else .ok (pyDictOf (entries.map (fun kv => (strip kv.1, entrySizes kv.2))))

/-- Model of `ParseArrayLengths.unparse`: each entry renders as
`name=\x7bsize1,size2,...\x7d`. -/
def unparse (values : List (Str × List ℤ)) : Str :=
  joinSep [','] (values.map (fun kv =>
    kv.1 ++ '=' :: '\x7b' :: joinSep [','] (kv.2.map intToDec) ++ ['\x7d']))

end ParseArrayLengths

/-! ## Config layers and the precedence resolver -/

/-! The numeric values of the `ConfigSource` `IntEnum`. -/
namespace ConfigSource

def void : ℕ := 0

def default : ℕ := 1

def config_file : ℕ := 2

def contract_annotation : ℕ := 3

def function_annotation : ℕ := 4

def command_line : ℕ := 5

end ConfigSource

/-- One immutable configuration layer: its `_source` tag and its stored
per-field values (`none` models a field the layer leaves unset, Python's
`None`).  A chain of layers is represented leaf-first: the head is the
layer itself, the tail is its `_parent` chain, and the empty list is the
`None` parent terminating the walk. -/
structure ConfigLayer (α : Type) where
  source : ℕ
  stored : Str → Option α

/-- A leaf-first chain of configuration layers. -/
abbrev Chain (α : Type) := List (ConfigLayer α)

namespace Config

/-- The loop body of `Config.value_with_source`: walk the chain leaf-first,
carrying the best value/source pair, replacing it whenever the current
layer stores a value for `name` and its source is strictly greater than the
best source seen so far. -/
def value_with_sourceAux (name : Str) : Chain α → Option α × ℕ → Option α × ℕ
  | [], best => best
  | c :: rest, (bv, bs) =>
    if (c.stored name).isSome ∧ bs < c.source then
      value_with_sourceAux name rest (c.stored name, c.source)
    else
      value_with_sourceAux name rest (bv, bs)

/-- Model of `Config.value_with_source`: start from
`(None, ConfigSource.void)` and walk the whole parent chain. -/
def value_with_source (chain : Chain α) (name : Str) : Option α × ℕ :=
  value_with_sourceAux name chain (none, ConfigSource.void)

/-- The layers of a chain that store a value for `name` (leaf-first). -/
def presentLayers (chain : Chain α) (name : Str) : Chain α :=
  chain.filter (fun c => (c.stored name).isSome)

/-- The highest source among the layers that store a value for `name`
(`ConfigSource.void = 0` when there are none). -/
def maxPresentSource (chain : Chain α) (name : Str) : ℕ :=
  ((presentLayers chain name).map ConfigLayer.source).foldr max 0

end Config

/-! ## Layer construction: `Config.with_overrides` -/

/-- The names of all fields of the `Config` dataclass, in declaration order:
the two internal fields (`_parent`, `_source`) followed by every
user-settable option field. -/
def configFieldNames : List Str :=
  (["_parent", "_source",
    "root", "config", "contract", "match_contract", "function", "match_test",
    "panic_error_codes", "invariant_depth", "loop", "width", "depth",
    "array_lengths", "default_array_lengths", "default_bytes_lengths",
    "storage_layout", "ffi", "version", "coverage_output",
    "verbose", "statistics", "no_status", "debug", "debug_config",
    "profile_instructions", "json_output", "minimal_json_output",
    "print_steps", "print_mem", "print_states", "print_success_states",
    "print_failed_states", "print_blocked_states", "print_setup_states",
    "print_full_model", "early_exit", "dump_smt_queries",
    "dump_smt_directory", "disable_gc", "trace_memory", "trace_events",
    "forge_build_out", "solver", "smt_exp_by_const",
    "solver_timeout_branching", "solver_timeout_assertion",
    "solver_max_memory", "solver_command", "solver_threads", "cache_solver",
    "symbolic_jump", "flamegraph", "test_parallel", "solver_parallel",
    "log", "uninterpreted_unknown_calls",
    "return_size_of_unknown_calls"] : List String).map String.toList

/-- The message of the `TypeError` CPython raises for an unexpected keyword
argument; `Config.with_overrides` extracts its last whitespace-delimited
word (the quoted key) for its own diagnostic. -/
def unexpectedKwargMsg (k : Str) : Str :=
  "Config.__init__() got an unexpected keyword argument ".toList ++
    '\x27' :: k ++ ['\x27']

/-- The message of the `TypeError` CPython raises when `**overrides`
collides with the explicitly passed `_parent`/`_source` keywords. -/
def multipleValuesMsg (k : Str) : Str :=
  "Config() got multiple values for keyword argument ".toList ++
    '\x27' :: k ++ ['\x27']

/-- The diagnostic `with_overrides` prints before exiting: the argparse
error format around the last word of the `TypeError` text. -/
def unrecognizedArgumentMsg (tyErrMsg : Str) : Str :=
  "error: unrecognized argument: ".toList ++ lastWord tyErrMsg

namespace Config

/-- Model of `Config.with_overrides`: `Config(_parent=self, _source=source,
**overrides)` raises `TypeError` if `overrides` re-binds an internal field
(keyword collision, detected first by CPython when merging the call's
keyword arguments) or contains a key that is not a `Config` dataclass
field; `with_overrides` turns that into the argparse-style diagnostic and
`sys.exit(2)`.  On success the new immutable layer heads the chain. -/
def with_overrides (chain : Chain α) (source : ℕ)
    (overrides : List (Str × Option α)) : Except (ℕ × Str) (Chain α) :=
  match overrides.find? (fun kv =>
      kv.1 == "_parent".toList || kv.1 == "_source".toList) with
  | some kv => .error (2, unrecognizedArgumentMsg (multipleValuesMsg kv.1))
  | none =>
    match overrides.find? (fun kv => !(configFieldNames.contains kv.1)) with
    | some kv => .error (2, unrecognizedArgumentMsg (unexpectedKwargMsg kv.1))
    | none =>
      .ok (⟨source, fun n =>
        match overrides.find? (fun kv => kv.1 == n) with
        | some kv => kv.2
        | none => none⟩ :: chain)

end Config

/-! ## Solver-command resolution -/

/-- Python truthiness of an optional string: `None` and `""` are falsy. -/
def pyTruthyOptStr (s : Option Str) : Bool :=
  match s with
  | none => false
  | some t => !t.isEmpty

/-- Model of `shlex.split` for commands without quoting or escape
characters (no claim depends on shell-quoting behaviour): split on
whitespace runs. -/
def shlexSplit (s : Str) : List Str := pySplitWs s

/-- The `RuntimeError` message for an unresolvable solver name. -/
def solverNotFoundMsg : Str :=
  "Solver could not be found or installed.".toList

namespace Config

/-- The fall-through branch of `resolved_solver_command`: look the resolved
`--solver` name up in the external solver registry
(`halmos.solvers.get_solver_command`, a collaborator outside `config.py`,
modelled as the function argument `registry`); a falsy result (`None` or an
empty command) is a fatal `RuntimeError`. -/
def lookupSolver (registry : Option Str → Option (List Str))
    (solver : Option Str) : Except Str (List Str) :=
  match registry solver with
  | some (c :: cs) => .ok (c :: cs)
  | _ => .error solverNotFoundMsg

/-- Model of the body of `Config.resolved_solver_command`, given the two
resolved `(value, source)` pairs it reads.  Returns the resolution result
together with whether the same-precedence warning was emitted on this
computation. -/
def resolved_solver_command_compute (registry : Option Str → Option (List Str))
    (solver : Option Str) (solverSrc : ℕ)
    (solverCommand : Option Str) (solverCommandSrc : ℕ) :
    Except Str (List Str) × Bool :=
  if pyTruthyOptStr solverCommand ∧ solverCommandSrc ≠ 0 ∧
      solverSrc ≤ solverCommandSrc then
    (.ok (shlexSplit (solverCommand.getD [])), decide (solverCommandSrc = solverSrc))
  else
    (lookupSolver registry solver, false)

/-- Model of the `@cached_property` evaluation of `resolved_solver_command`:
with a filled cache the stored result is returned and no warning can be
emitted; with an empty cache the body runs once and the result is stored.
Returns (result, new cache, number of warnings emitted). -/
def resolved_solver_command_cached (cache : Option (Except Str (List Str)))
    (registry : Option Str → Option (List Str))
    (solver : Option Str) (solverSrc : ℕ)
    (solverCommand : Option Str) (solverCommandSrc : ℕ) :
    Except Str (List Str) × Option (Except Str (List Str)) × ℕ :=
  match cache with
  | some r => (r, some r, 0)
  | none =>
    let rw := resolved_solver_command_compute registry solver solverSrc
      solverCommand solverCommandSrc
    (rw.1, some rw.1, if rw.2 then 1 else 0)

/-- Total number of warnings emitted by resolving the same configuration
object twice in a row (the second access hits the `cached_property`). -/
def warningsWhenResolvedTwice (registry : Option Str → Option (List Str))
    (solver : Option Str) (solverSrc : ℕ)
    (solverCommand : Option Str) (solverCommandSrc : ℕ) : ℕ :=
  let r1 := resolved_solver_command_cached none registry solver solverSrc
    solverCommand solverCommandSrc
  let r2 := resolved_solver_command_cached r1.2.1 registry solver solverSrc
    solverCommand solverCommandSrc
  r1.2.2 + r2.2.2

end Config

/-! ## TOML table-structure validation -/

/-- The two failure modes of `TomlParser.parse_dict`: a `warn` + `sys.exit`
with an exit status, or a propagating `ValueError` raised by a field
codec's `parse`. -/
inductive TomlFailure
  | exit (code : ℕ) (msg : Str)
  | valueError (msg : Str)
deriving DecidableEq

/-- The expected top-level table name. -/
def globalSection : Str := "global".toList

/-- The diagnostic for a document whose top-level table count is not 1:
reports the count and the comma-joined table names. -/
def structureMsg (names : List Str) : Str :=
  "error: expected a single `[global]` section in the toml file, got ".toList ++
    natToDec names.length ++ ": ".toList ++ joinSep ", ".toList names

/-- The diagnostic for a single top-level table whose name is not `global`:
reports the unexpected name. -/
def sectionMsg (k : Str) : Str :=
  "error: expected a `[global]` section in the toml file, got ".toList ++
    '\x27' :: k ++ ['\x27']

/-- Python `key.replace("-", "_")`. -/
def replaceDashes (k : Str) : Str :=
  k.map (fun c => if c = '-' then '_' else c)

namespace TomlParser

/-- The per-key body of the result loop of `parse_dict`: translate hyphens,
then run the field's registered codec `parse` if there is one (the codec
table is the `actions` argument; a raised `ValueError` propagates). -/
def applyActions (actions : Str → Option (α → Except Str α)) :
    List (Str × α) → Except Str (List (Str × α))
  | [] => .ok []
  | (k, v) :: rest =>
    let k' := replaceDashes k
    match (match actions k' with
           | some act => act v
           | none => .ok v) with
    | .error m => .error m
    | .ok v' =>
      match applyActions actions rest with
      | .error m => .error m
      | .ok rest' => .ok ((k', v') :: rest')

/-- Model of `TomlParser.parse_dict`: the parsed document (an
insertion-ordered table-name → table map) must contain exactly one
top-level table, and that table must be named `global`; otherwise `warn` +
`sys.exit(2)`.  The accepted table's keys are hyphen-translated and run
through the codec table, and collected into a dict. -/
def parse_dict (actions : Str → Option (α → Except Str α))
    (parsed : List (Str × List (Str × α))) :
    Except TomlFailure (List (Str × α)) :=
  if parsed.length ≠ 1 then
    .error (.exit 2 (structureMsg (parsed.map (·.1))))
  else
    match pyDictGet parsed globalSection with
    | some data =>
      match applyActions actions data with
      | .ok r => .ok (pyDictOf r)
      | .error m => .error (.valueError m)
    | none =>
      match parsed.head? with
      | some kv => .error (.exit 2 (sectionMsg kv.1))
      | none => .error (.exit 2 (sectionMsg []))

end TomlParser

/-! ## Config-file locator -/

/-- Model of `os.path.join(root, name)` for a relative `name` (the only way
the source calls it): insert a separator unless `root` already ends with
one or is empty. -/
def pathJoin (root name : Str) : Str :=
  if root = [] then name
  else if root.getLast? = some '/' then root ++ name
  else root ++ '/' :: name

/-- The conventional config-file name. -/
def halmosToml : Str := "halmos.toml".toList

/-- Model of `resolve_config_files`.  `cfgArg`/`rootArg` are the values of
the `--config`/`--root` flags extracted by the throwaway argparse parser
(`none` when absent; `rootArg` defaults to the current working directory
`cwd`).  `pathExists` abstracts `os.path.exists`.  An explicitly given
(truthy) `--config` is returned unconditionally, without an existence
check; otherwise the conventional `root/halmos.toml` is returned, or the
empty list when it does not exist and missing files are excluded. -/
def resolve_config_files (cfgArg rootArg : Option Str) (cwd : Str)
    (include_missing : Bool) (pathExists : Str → Bool) : List Str :=
  let root := rootArg.getD cwd
  if pyTruthyOptStr cfgArg then [cfgArg.getD []]
  else
    let default_config_path := pathJoin root halmosToml
    if !include_missing && !pathExists default_config_path then []
    else [default_config_path]

/-! ## Lemmas about the precedence resolver -/

theorem le_foldr_max (xs : List ℕ) : ∀ x ∈ xs, x ≤ xs.foldr max 0 := by
  induction xs with
  | nil => simp
  | cons y ys ih =>
    intro x hx
    rcases List.mem_cons.1 hx with h | h
    · subst h
      exact le_max_left _ _
    · exact le_trans (ih x h) (le_max_right _ _)

theorem foldr_max_mem (xs : List ℕ) (h : xs ≠ []) : xs.foldr max 0 ∈ xs := by
  induction xs with
  | nil => exact absurd rfl h
  | cons y ys ih =>
    cases ys with
    | nil => simp
    | cons z zs =>
      rw [List.foldr_cons]
      rcases le_total (List.foldr max 0 (z :: zs)) y with hle | hle
      · rw [max_eq_left hle]
        exact List.mem_cons_self _ _
      · rw [max_eq_right hle]
        exact List.mem_cons_of_mem _ (ih (by simp))

namespace Config

theorem presentLayers_cons_pos (name : Str) (c : ConfigLayer α) (rest : Chain α)
    (h : (c.stored name).isSome = true) :
    presentLayers (c :: rest) name = c :: presentLayers rest name :=
  List.filter_cons_of_pos h

theorem presentLayers_cons_neg (name : Str) (c : ConfigLayer α) (rest : Chain α)
    (h : ¬(c.stored name).isSome = true) :
    presentLayers (c :: rest) name = presentLayers rest name :=
  List.filter_cons_of_neg h

theorem source_le_maxPresentSource (chain : Chain α) (name : Str)
    {d : ConfigLayer α} (hd : d ∈ presentLayers chain name) :
    d.source ≤ maxPresentSource chain name :=
  le_foldr_max _ _ (List.mem_map_of_mem ConfigLayer.source hd)

/-- If no present layer can beat the running best source, the walk keeps the
accumulator. -/
theorem value_with_sourceAux_no_beat (name : Str) (l : Chain α)
    (bv : Option α) (bs : ℕ)
    (h : ∀ d ∈ l, (d.stored name).isSome = true → d.source ≤ bs) :
    value_with_sourceAux name l (bv, bs) = (bv, bs) := by
  induction l generalizing bv bs with
  | nil => rfl
  | cons c rest ih =>
    rw [value_with_sourceAux, if_neg]
    · exact ih bv bs (fun d hd => h d (List.mem_cons_of_mem _ hd))
    · rintro ⟨h1, h2⟩
      exact absurd (h c (List.mem_cons_self _ _) h1) (by omega)

/-- The central characterization: starting from a best source that is
strictly below the maximal present source, the walk ends at the first
(leaf-most) present layer holding that maximal source. -/
theorem value_with_sourceAux_finds_max (name : Str) (l : Chain α) :
    ∀ (bv : Option α) (bs : ℕ), bs < maxPresentSource l name →
    ∀ d, (presentLayers l name).find?
        (fun c => c.source == maxPresentSource l name) = some d →
    value_with_sourceAux name l (bv, bs) = (d.stored name, d.source) := by
  induction l with
  | nil =>
    intro bv bs hbs d hd
    exact absurd hbs (by simp [maxPresentSource, presentLayers])
  | cons c rest ih =>
    intro bv bs hbs d hd
    by_cases hpres : (c.stored name).isSome = true
    · have hP : presentLayers (c :: rest) name = c :: presentLayers rest name :=
        presentLayers_cons_pos name c rest hpres
      have hM : maxPresentSource (c :: rest) name =
          max c.source (maxPresentSource rest name) := by
        rw [maxPresentSource, hP, List.map_cons, List.foldr_cons]
        rfl
      by_cases hbeat : bs < c.source
      · rw [value_with_sourceAux, if_pos ⟨hpres, hbeat⟩]
        rcases le_or_lt (maxPresentSource rest name) c.source with hrest | hrest
        · -- the head holds the maximal source: it is the first hit and it wins
          have hMc : maxPresentSource (c :: rest) name = c.source := by
            rw [hM, max_eq_left hrest]
          have : (presentLayers (c :: rest) name).find?
              (fun x => x.source == maxPresentSource (c :: rest) name) = some c := by
            rw [hP]
            exact List.find?_cons_of_pos _ (by simp [hMc])
          rw [this] at hd
          injection hd with hd
          subst hd
          exact value_with_sourceAux_no_beat name rest _ _
            (fun x hx hxp => le_trans
              (source_le_maxPresentSource rest name (List.mem_filter.2 ⟨hx, hxp⟩)) hrest)
        · -- the maximum lives deeper in the chain
          have hMc : maxPresentSource (c :: rest) name = maxPresentSource rest name := by
            rw [hM, max_eq_right (le_of_lt hrest)]
          have hne : (c.source == maxPresentSource (c :: rest) name) = false := by
            simp only [beq_eq_false_iff_ne, ne_eq, hMc]
            omega
          rw [hP, List.find?_cons_of_neg _ (by simp [hne]), hMc] at hd
          exact ih (c.stored name) c.source hrest d hd
      · -- the head does not beat the accumulator, so the max is deeper
        rw [value_with_sourceAux, if_neg (by tauto)]
        have hcs : c.source ≤ bs := by omega
        have hrest : bs < maxPresentSource rest name := by
          rw [hM] at hbs
          omega
        have hMc : maxPresentSource (c :: rest) name = maxPresentSource rest name := by
          rw [hM, max_eq_right (by omega)]
        have hne : (c.source == maxPresentSource (c :: rest) name) = false := by
          simp only [beq_eq_false_iff_ne, ne_eq, hMc]
          omega
        rw [hP, List.find?_cons_of_neg _ (by simp [hne]), hMc] at hd
        exact ih bv bs hrest d hd
    · have hP : presentLayers (c :: rest) name = presentLayers rest name :=
        presentLayers_cons_neg name c rest hpres
      have hM : maxPresentSource (c :: rest) name = maxPresentSource rest name := by
        rw [maxPresentSource, hP]
        rfl
      rw [value_with_sourceAux, if_neg (by tauto)]
      rw [hP, hM] at hd
      rw [hM] at hbs
      exact ih bv bs hbs d hd

/-- Walking the chain ignores the layers that leave the field unset. -/
theorem value_with_sourceAux_filter (name : Str) (l : Chain α)
    (bv : Option α) (bs : ℕ) :
    value_with_sourceAux name l (bv, bs) =
      value_with_sourceAux name (presentLayers l name) (bv, bs) := by
  induction l generalizing bv bs with
  | nil => rfl
  | cons c rest ih =>
    by_cases hpres : (c.stored name).isSome = true
    · rw [presentLayers_cons_pos name c rest hpres]
      rw [value_with_sourceAux, value_with_sourceAux]
      by_cases hbeat : bs < c.source
      · rw [if_pos ⟨hpres, hbeat⟩, if_pos ⟨hpres, hbeat⟩, ih]
      · rw [if_neg (by tauto), if_neg (by tauto), ih]
    · rw [presentLayers_cons_neg name c rest hpres]
      rw [value_with_sourceAux, if_neg (by tauto), ih]

end Config

/-- The last whitespace-delimited word of a string ending in a space-free
non-empty token preceded by a space is that token. -/
theorem lastWord_append (xs q : Str) (hq1 : q ≠ [])
    (hq2 : ∀ c ∈ q, pyIsSpace c = false) :
    lastWord (xs ++ ' ' :: q) = q := by
  rw [lastWord, pySplitWs, splitP_append_sep pyIsSpace xs q (by decide)]
  rw [List.filter_append, splitP_nosep pyIsSpace q hq2]
  rw [show List.filter (fun t => decide (t ≠ [])) [q] = [q] by simp [hq1]]
  exact List.getLastD_concat _ _ _

/-! ## Claim C1 -/

/-- A sample three-layer chain (leaf-first: command line, config file,
defaults) where only the two outer layers set `loop`. -/
def sampleChain : Chain ℕ :=
  [⟨ConfigSource.command_line, fun _ => none⟩,
   ⟨ConfigSource.config_file, fun n => if n = "loop".toList then some 4 else none⟩,
   ⟨ConfigSource.default, fun n => if n = "loop".toList then some 2 else none⟩]

/-- C1: for every layer chain (whose layers carry real sources, i.e. not the
`void` marker that stands for "no source") and every field name,
`Config.value_with_source` returns the stored value and source of the
leaf-most layer among those that set the field whose source is the
numerically highest — ties on equal sources go to the layer closer to the
leaf because the walk's comparison is strict greater-than (that layer is
the `find?`-first element of the present layers holding the maximal
source); if no layer sets the field it returns `(none, void)`; and layers
that leave the field unset never affect the result. -/
theorem value_with_source_resolution (chain : Chain α) (name : Str)
    (hsrc : ∀ c ∈ chain, c.source ≠ ConfigSource.void) :
    (Config.presentLayers chain name = [] →
      Config.value_with_source chain name = (none, ConfigSource.void)) ∧
    (Config.presentLayers chain name ≠ [] →
      ∃ d, (Config.presentLayers chain name).find?
          (fun c => c.source == Config.maxPresentSource chain name) = some d ∧
        Config.value_with_source chain name = (d.stored name, d.source)) ∧
    Config.value_with_source chain name =
      Config.value_with_source (Config.presentLayers chain name) name := by
  refine ⟨?_, ?_, ?_⟩
  · intro hP
    apply Config.value_with_sourceAux_no_beat
    intro d hd hds
    have hmem : d ∈ Config.presentLayers chain name := by
      rw [Config.presentLayers]
      exact List.mem_filter.2 ⟨hd, hds⟩
    rw [hP] at hmem
    simp at hmem
  · intro hP
    obtain ⟨d0, hd0⟩ : ∃ d0 ∈ Config.presentLayers chain name,
        d0.source = Config.maxPresentSource chain name := by
      have hmem : Config.maxPresentSource chain name ∈
          (Config.presentLayers chain name).map ConfigLayer.source :=
        foldr_max_mem _ (by simpa using hP)
      obtain ⟨d0, hd0m, hd0s⟩ := List.mem_map.1 hmem
      exact ⟨d0, hd0m, hd0s⟩
    have hfind : ((Config.presentLayers chain name).find?
        (fun c => c.source == Config.maxPresentSource chain name)).isSome :=
      List.find?_isSome.2 ⟨d0, hd0.1, by simp [hd0.2]⟩
    obtain ⟨d, hd⟩ := Option.isSome_iff_exists.1 hfind
    refine ⟨d, hd, ?_⟩
    apply Config.value_with_sourceAux_finds_max name chain none ConfigSource.void _ d hd
    have h1 : d0.source ≠ 0 :=
      hsrc d0 (List.mem_filter.1 hd0.1).1
    rw [ConfigSource.void]
    omega
  · exact Config.value_with_sourceAux_filter name chain none ConfigSource.void

/-- Witness for C1 on `sampleChain`: the hypotheses hold and the resolver
picks the config-file layer's value 4 with source 2. -/
theorem value_with_source_resolution_witness :
    (∀ c ∈ sampleChain, c.source ≠ ConfigSource.void) ∧
    ((Config.presentLayers sampleChain ("loop".toList) = [] →
      Config.value_with_source sampleChain ("loop".toList) = (none, ConfigSource.void)) ∧
    (Config.presentLayers sampleChain ("loop".toList) ≠ [] →
      ∃ d, (Config.presentLayers sampleChain ("loop".toList)).find?
          (fun c => c.source == Config.maxPresentSource sampleChain ("loop".toList)) = some d ∧
        Config.value_with_source sampleChain ("loop".toList) = (d.stored ("loop".toList), d.source)) ∧
    Config.value_with_source sampleChain ("loop".toList) =
      Config.value_with_source (Config.presentLayers sampleChain ("loop".toList)) ("loop".toList)) :=
  ⟨by decide, value_with_source_resolution sampleChain ("loop".toList) (by decide)⟩

/-! ## Claim C2 -/

/-- C2: with a non-empty `solver_command` override carried by a real source,
`resolved_solver_command` uses the override exactly when the override's
source is at least the named solver's source; at equal precedence the
override still wins but the deduplicated warning fires, and resolving the
same configuration twice emits the warning exactly once in total (the
second resolution hits the `cached_property`). -/
theorem resolved_solver_command_override_rule
    (registry : Option Str → Option (List Str)) (solver : Option Str)
    (ssrc : ℕ) (cmd : Str) (csrc : ℕ)
    (hcmd : cmd ≠ []) (hcsrc : csrc ≠ ConfigSource.void) :
    (ssrc ≤ csrc →
      Config.resolved_solver_command_compute registry solver ssrc (some cmd) csrc =
        (.ok (shlexSplit cmd), decide (csrc = ssrc))) ∧
    (csrc < ssrc →
      Config.resolved_solver_command_compute registry solver ssrc (some cmd) csrc =
        (Config.lookupSolver registry solver, false)) ∧
    Config.warningsWhenResolvedTwice registry solver ssrc (some cmd) csrc =
      (if csrc = ssrc then 1 else 0) := by
  have htruthy : pyTruthyOptStr (some cmd) = true := by
    simp [pyTruthyOptStr, hcmd]
  have hvoid : csrc ≠ 0 := by
    rw [ConfigSource.void] at hcsrc
    exact hcsrc
  have htwice : Config.warningsWhenResolvedTwice registry solver ssrc (some cmd) csrc =
      (if (Config.resolved_solver_command_compute registry solver ssrc
          (some cmd) csrc).2 then 1 else 0) := by
    simp [Config.warningsWhenResolvedTwice, Config.resolved_solver_command_cached]
  have hpos : ssrc ≤ csrc →
      Config.resolved_solver_command_compute registry solver ssrc (some cmd) csrc =
        (.ok (shlexSplit cmd), decide (csrc = ssrc)) := by
    intro hle
    rw [Config.resolved_solver_command_compute, if_pos]
    · rfl
    · exact ⟨htruthy, hvoid, hle⟩
  have hneg : csrc < ssrc →
      Config.resolved_solver_command_compute registry solver ssrc (some cmd) csrc =
        (Config.lookupSolver registry solver, false) := by
    intro hlt
    rw [Config.resolved_solver_command_compute, if_neg]
    intro h
    exact absurd h.2.2 (by omega)
  refine ⟨hpos, hneg, ?_⟩
  by_cases hle : ssrc ≤ csrc
  · rw [htwice, hpos hle]
    by_cases heq : csrc = ssrc <;> simp [heq]
  · rw [htwice, hneg (by omega)]
    have hne : csrc ≠ ssrc := by omega
    simp [hne]

/-- Witness for C2 with the override at command-line precedence and the
named solver at default precedence: the override wins silently (shell-split
into its two tokens), and a same-precedence pair warns exactly once over
two resolutions. -/
theorem resolved_solver_command_override_rule_witness :
    Config.resolved_solver_command_compute (fun _ => some ["yices".toList])
        (some ("yices".toList)) ConfigSource.default
        (some ("z3 -in".toList)) ConfigSource.command_line =
      (Except.ok ["z3".toList, "-in".toList], false) ∧
    Config.warningsWhenResolvedTwice (fun _ => some ["yices".toList])
        (some ("yices".toList)) ConfigSource.command_line
        (some ("z3 -in".toList)) ConfigSource.command_line = 1 := by
  have h1 := resolved_solver_command_override_rule (fun _ => some ["yices".toList])
    (some ("yices".toList)) ConfigSource.default ("z3 -in".toList)
    ConfigSource.command_line (by decide) (by decide)
  have h2 := resolved_solver_command_override_rule (fun _ => some ["yices".toList])
    (some ("yices".toList)) ConfigSource.command_line ("z3 -in".toList)
    ConfigSource.command_line (by decide) (by decide)
  constructor
  · rw [h1.1 (by decide)]
    rfl
  · rw [h2.2.2]
    decide

/-! ## Claim C9 -/

/-- C9: when the resolved `solver_command` is absent or the empty string
(the built-in default), `resolved_solver_command` always takes the
named-solver registry-lookup path, no matter how high the empty override's
source precedence is. -/
theorem resolved_solver_command_empty_override
    (registry : Option Str → Option (List Str)) (solver : Option Str)
    (ssrc : ℕ) (cmd : Option Str) (csrc : ℕ)
    (hcmd : cmd = none ∨ cmd = some []) :
    Config.resolved_solver_command_compute registry solver ssrc cmd csrc =
      (Config.lookupSolver registry solver, false) := by
  have htruthy : pyTruthyOptStr cmd = false := by
    rcases hcmd with h | h <;> subst h <;> rfl
  rw [Config.resolved_solver_command_compute, if_neg]
  rintro ⟨h1, -, -⟩
  rw [htruthy] at h1
  exact absurd h1 (by simp)

/-- Witness for C9: an empty-string override at the highest precedence
still resolves through the registry. -/
theorem resolved_solver_command_empty_override_witness :
    ((some ([] : Str) = none ∨ some ([] : Str) = some ([] : Str)) ∧
    Config.resolved_solver_command_compute (fun _ => some ["yices".toList])
        (some ("yices".toList)) ConfigSource.default
        (some ([] : Str)) ConfigSource.command_line =
      (Config.lookupSolver (fun _ => some ["yices".toList]) (some ("yices".toList)), false)) :=
  ⟨Or.inr rfl,
    resolved_solver_command_empty_override (fun _ => some ["yices".toList])
      (some ("yices".toList)) ConfigSource.default (some []) ConfigSource.command_line
      (Or.inr rfl)⟩

/-! ## Claim C8 -/

/-- C8: the config-file locator returns an explicitly given (truthy)
`--config` path unconditionally — for any `include_missing` flag and any
state of the filesystem — without an existence check; with no explicit
path it returns the conventional `root/halmos.toml` (root defaulting to
the current working directory), returning `[]` when that file does not
exist and missing files are excluded, and returning the path regardless of
existence when `include_missing` is set. -/
theorem resolve_config_files_spec (rootArg : Option Str) (cwd : Str) :
    (∀ c : Str, c ≠ [] → ∀ (im : Bool) (ex : Str → Bool),
      resolve_config_files (some c) rootArg cwd im ex = [c]) ∧
    (∀ cfg : Option Str, cfg = none ∨ cfg = some [] → ∀ ex : Str → Bool,
      (ex (pathJoin (rootArg.getD cwd) halmosToml) = false →
        resolve_config_files cfg rootArg cwd false ex = []) ∧
      (ex (pathJoin (rootArg.getD cwd) halmosToml) = true →
        resolve_config_files cfg rootArg cwd false ex =
          [pathJoin (rootArg.getD cwd) halmosToml]) ∧
      resolve_config_files cfg rootArg cwd true ex =
        [pathJoin (rootArg.getD cwd) halmosToml]) := by
  constructor
  · intro c hc im ex
    rw [resolve_config_files, if_pos (by simp [pyTruthyOptStr, hc])]
    rfl
  · intro cfg hcfg ex
    have htruthy : pyTruthyOptStr cfg = false := by
      rcases hcfg with h | h <;> subst h <;> rfl
    refine ⟨?_, ?_, ?_⟩
    · intro hex
      rw [resolve_config_files, if_neg (by simp [htruthy])]
      simp [hex]
    · intro hex
      rw [resolve_config_files, if_neg (by simp [htruthy])]
      simp [hex]
    · rw [resolve_config_files, if_neg (by simp [htruthy])]
      simp

/-- Witness for C8: an explicit `--config` wins under both existence
predicates, and with no explicit config the conventional path is returned
when the file exists (or when missing files are included) and the empty
list is returned when it is missing and excluded. -/
theorem resolve_config_files_spec_witness :
    ("myconf.toml".toList ≠ ([] : Str)) ∧
    (resolve_config_files (some ("myconf.toml".toList)) none ("/proj".toList)
        false (fun _ => false) = ["myconf.toml".toList]) ∧
    ((none : Option Str) = none ∨ (none : Option Str) = some []) ∧
    ((fun _ => false : Str → Bool) (pathJoin ((none : Option Str).getD ("/proj".toList)) halmosToml) = false →
      resolve_config_files none none ("/proj".toList) false (fun _ => false) = []) ∧
    ((fun _ => true : Str → Bool) (pathJoin ((none : Option Str).getD ("/proj".toList)) halmosToml) = true →
      resolve_config_files none none ("/proj".toList) false (fun _ => true) =
        [pathJoin ((none : Option Str).getD ("/proj".toList)) halmosToml]) ∧
    resolve_config_files none none ("/proj".toList) true (fun _ => false) =
      [pathJoin ((none : Option Str).getD ("/proj".toList)) halmosToml] := by
  refine ⟨by decide, ?_, Or.inl rfl, ?_, ?_, ?_⟩
  · exact (resolve_config_files_spec none ("/proj".toList)).1
      ("myconf.toml".toList) (by decide) false (fun _ => false)
  · exact ((resolve_config_files_spec none ("/proj".toList)).2 none (Or.inl rfl)
      (fun _ => false)).1
  · exact ((resolve_config_files_spec none ("/proj".toList)).2 none (Or.inl rfl)
      (fun _ => true)).2.1
  · exact ((resolve_config_files_spec none ("/proj".toList)).2 none (Or.inl rfl)
      (fun _ => false)).2.2

/-! ## Claim C5 -/

/-- C5: `TomlParser.parse_dict` exits fatally (status 2) when the document
does not have exactly one top-level table, reporting the table count and
the table names; it exits fatally reporting the unexpected name when the
single table is not named `global`; and a document with exactly one table
named `global` is accepted (proceeding to the per-key codec pass, so that
when every codec application succeeds the result is the translated dict). -/
theorem parse_dict_structure_validation {α : Type}
    (actions : Str → Option (α → Except Str α))
    (parsed : List (Str × List (Str × α))) :
    (parsed.length ≠ 1 →
      TomlParser.parse_dict actions parsed =
        .error (.exit 2 (structureMsg (parsed.map (·.1))))) ∧
    (∀ k t, parsed = [(k, t)] → k ≠ globalSection →
      TomlParser.parse_dict actions parsed = .error (.exit 2 (sectionMsg k))) ∧
    (∀ t r, parsed = [(globalSection, t)] →
      TomlParser.applyActions actions t = .ok r →
      TomlParser.parse_dict actions parsed = .ok (pyDictOf r)) := by
  refine ⟨?_, ?_, ?_⟩
  · intro hlen
    rw [TomlParser.parse_dict, if_pos hlen]
  · intro k t hparsed hk
    subst hparsed
    rw [TomlParser.parse_dict, if_neg (by simp)]
    have hget : pyDictGet [(k, t)] globalSection = none := by
      rw [pyDictGet, List.find?_cons_of_neg _ (by simp [hk]), List.find?_nil]
      rfl
    rw [hget]
    rfl
  · intro t r hparsed hacts
    subst hparsed
    rw [TomlParser.parse_dict, if_neg (by simp)]
    have hget : pyDictGet [(globalSection, t)] globalSection = some t := by
      rw [pyDictGet, List.find?_cons_of_pos _ (by simp)]
      rfl
    rw [hget]
    show (match TomlParser.applyActions actions t with
          | .ok r => Except.ok (pyDictOf r)
          | .error m => Except.error (TomlFailure.valueError m)) = Except.ok (pyDictOf r)
    rw [hacts]

/-- Witness for C5: a two-table document is rejected with the count-and-names
diagnostic, a lone `[settings]` table is rejected naming it, and a lone
`[global]` table (with no registered codecs) is accepted. -/
theorem parse_dict_structure_validation_witness :
    (([("tbl1".toList, [("loop".toList, (3 : ℕ))]), ("tbl2".toList, [])].length ≠ 1) ∧
    TomlParser.parse_dict (fun _ => none)
        [("tbl1".toList, [("loop".toList, (3 : ℕ))]), ("tbl2".toList, [])] =
      .error (.exit 2 (structureMsg ["tbl1".toList, "tbl2".toList]))) ∧
    ("settings".toList ≠ globalSection ∧
    TomlParser.parse_dict (fun _ => none)
        [("settings".toList, [("loop".toList, (3 : ℕ))])] =
      .error (.exit 2 (sectionMsg ("settings".toList)))) ∧
    TomlParser.parse_dict (fun _ => none)
        [(globalSection, [("loop".toList, (3 : ℕ))])] =
      .ok (pyDictOf [("loop".toList, (3 : ℕ))]) := by
  refine ⟨⟨by decide, ?_⟩, ⟨by decide, ?_⟩, ?_⟩
  · exact (parse_dict_structure_validation (fun _ => none) _).1 (by decide)
  · exact (parse_dict_structure_validation (fun _ => none) _).2.1
      ("settings".toList) _ rfl (by decide)
  · exact (parse_dict_structure_validation (fun _ => none) _).2.2 _ _ rfl rfl

/-! ## Claim C4 -/

/-- C4: building a layer with any override key that is not a field of the
`Config` schema fails with the argparse-style unknown-argument error that
names the offending key, exiting with status 2 — and no partial
configuration is ever returned when an unknown key is present.  (The first
hypothesis says the overrides do not also collide with the internal
`_parent`/`_source` keywords, whose CPython `TypeError` fires first; the
second picks out the first unknown key; keys contain no whitespace, as
argparse `dest`s and TOML keys never do, so the last-word extraction from
the `TypeError` text recovers the quoted key.) -/
theorem with_overrides_unknown_key (chain : Chain α) (source : ℕ)
    (overrides : List (Str × Option α)) (k : Str) (v : Option α)
    (hint : overrides.find? (fun kv =>
      kv.1 == "_parent".toList || kv.1 == "_source".toList) = none)
    (hfind : overrides.find? (fun kv =>
      !(configFieldNames.contains kv.1)) = some (k, v))
    (hk : ∀ c ∈ k, pyIsSpace c = false) :
    Config.with_overrides chain source overrides =
      .error (2, "error: unrecognized argument: ".toList ++
        '\x27' :: k ++ ['\x27']) ∧
    (∀ ov : List (Str × Option α),
      (∃ kv ∈ ov, ¬configFieldNames.contains kv.1 = true) →
      ∀ ch, Config.with_overrides chain source ov ≠ .ok ch) := by
  constructor
  · rw [Config.with_overrides, hint, hfind]
    show Except.error (2, unrecognizedArgumentMsg (unexpectedKwargMsg k)) = _
    have hmsg : lastWord (unexpectedKwargMsg k) = '\x27' :: k ++ ['\x27'] := by
      have hsplit : unexpectedKwargMsg k =
          "Config.__init__() got an unexpected keyword argument".toList ++
            ' ' :: ('\x27' :: k ++ ['\x27']) := rfl
      rw [hsplit]
      apply lastWord_append
      · simp
      · intro c hc
        rcases List.mem_cons.1 hc with h | h
        · subst h; rfl
        · rcases List.mem_append.1 h with h | h
          · exact hk c h
          · simp only [List.mem_singleton] at h
            subst h; rfl
    rw [unrecognizedArgumentMsg, hmsg]
    rfl
  · intro ov hex ch
    rw [Config.with_overrides]
    cases h2 : ov.find? (fun kv =>
        kv.1 == "_parent".toList || kv.1 == "_source".toList) with
    | some kv => simp
    | none =>
      obtain ⟨kv, hmem, hkv⟩ := hex
      have hisSome : (ov.find? (fun kv =>
          !(configFieldNames.contains kv.1))).isSome :=
        List.find?_isSome.2 ⟨kv, hmem, by simpa using hkv⟩
      cases h3 : ov.find? (fun kv => !(configFieldNames.contains kv.1)) with
      | none => rw [h3] at hisSome; simp at hisSome
      | some kv2 => simp

/-- Witness for C4: overriding the misspelled key `lop` fails with the
unknown-argument diagnostic naming `lop` and exit status 2, and no
configuration is produced. -/
theorem with_overrides_unknown_key_witness :
    (([(("lop".toList : Str), some (2 : ℕ))].find? (fun kv =>
      kv.1 == "_parent".toList || kv.1 == "_source".toList) = none) ∧
    ([(("lop".toList : Str), some (2 : ℕ))].find? (fun kv =>
      !(configFieldNames.contains kv.1)) = some ("lop".toList, some 2)) ∧
    (∀ c ∈ ("lop".toList : Str), pyIsSpace c = false)) ∧
    (Config.with_overrides ([] : Chain ℕ) ConfigSource.command_line
        [("lop".toList, some 2)] =
      .error (2, "error: unrecognized argument: ".toList ++
        '\x27' :: "lop".toList ++ ['\x27'])) ∧
    (∀ ch, Config.with_overrides ([] : Chain ℕ) ConfigSource.command_line
        [("lop".toList, some 2)] ≠ .ok ch) := by
  have h := with_overrides_unknown_key ([] : Chain ℕ) ConfigSource.command_line
    [("lop".toList, some 2)] ("lop".toList) (some 2)
    (by decide) (by decide) (by decide)
  exact ⟨⟨by decide, by decide, by decide⟩, h.1,
    h.2 [("lop".toList, some 2)] ⟨("lop".toList, some 2), by decide, by decide⟩⟩

/-! ## Dict membership lemmas -/

theorem mem_pyDictInsert {d : List (Str × α)} {k : Str} {v : α} {kv : Str × α}
    (h : kv ∈ pyDictInsert d k v) : kv ∈ d ∨ kv = (k, v) := by
  rw [pyDictInsert] at h
  split at h
  · obtain ⟨kv', hkv', heq⟩ := List.mem_map.1 h
    by_cases hk : (kv'.1 == k) = true
    · rw [if_pos hk] at heq
      exact Or.inr heq.symm
    · rw [if_neg hk] at heq
      exact Or.inl (heq ▸ hkv')
  · rcases List.mem_append.1 h with h1 | h2
    · exact Or.inl h1
    · simp only [List.mem_singleton] at h2
      exact Or.inr h2

theorem mem_pyDictOf_aux (l acc : List (Str × α)) (kv : Str × α)
    (h : kv ∈ l.foldl (fun d p => pyDictInsert d p.1 p.2) acc) :
    kv ∈ acc ∨ kv ∈ l := by
  induction l generalizing acc with
  | nil => exact Or.inl h
  | cons a l' ih =>
    rw [List.foldl_cons] at h
    rcases ih _ h with h1 | h2
    · rcases mem_pyDictInsert h1 with h3 | h4
      · exact Or.inl h3
      · rw [h4]
        exact Or.inr (List.mem_cons_self _ _)
    · exact Or.inr (List.mem_cons_of_mem _ h2)

/-- Every entry of a Python dict built from a pair list is one of the pairs. -/
theorem mem_pyDictOf {l : List (Str × α)} {kv : Str × α}
    (h : kv ∈ pyDictOf l) : kv ∈ l := by
  rcases mem_pyDictOf_aux l [] kv h with h1 | h1
  · simp at h1
  · exact h1

/-! ## Claim C6 -/

/-- C6: the integer-set codec parses `"*"` to the empty set, serializes the
empty set back to `"*"`, parses multi-base CSV input so
`parse("0x01,2") = \x7b1, 2\x7d`, and rejects any non-`"*"` input whose
parse would yield an empty set. -/
theorem error_codes_star_and_bases :
    ParseErrorCodes.parse ['*'] = .ok ∅ ∧
    ParseErrorCodes.unparse ∅ = ['*'] ∧
    ParseErrorCodes.parse ("0x01,2".toList) = .ok ({1, 2} : Finset ℤ) ∧
    (∀ s : Str, strip s ≠ ['*'] → ∀ r, ParseErrorCodes.parse s = .ok r → r ≠ ∅) := by
  refine ⟨by rfl, by rfl, by rfl, ?_⟩
  intro s hs r hr
  simp only [ParseErrorCodes.parse] at hr
  rw [if_neg hs] at hr
  cases hm : pyMapRaise pyIntBase0 (parse_csv (strip s)) with
  | none =>
    rw [hm] at hr
    exact absurd (show (Except.error invalidIntMsg : Except Str (Finset ℤ)) =
      Except.ok r from hr) (by simp)
  | some ints =>
    rw [hm] at hr
    have hr2 : (if ints.toFinset = ∅ then (Except.error nonEmptyMsg : Except Str (Finset ℤ))
        else Except.ok ints.toFinset) = Except.ok r := hr
    by_cases hemp : ints.toFinset = ∅
    · rw [if_pos hemp] at hr2
      exact absurd hr2 (by simp)
    · rw [if_neg hemp] at hr2
      have : ints.toFinset = r := by
        injection hr2
      rw [← this]
      exact hemp

/-- Witness for C6's general conjunct: `"7"` is not `"*"`, parses to the
singleton set, and that set is non-empty. -/
theorem error_codes_star_and_bases_witness :
    (strip ("7".toList) ≠ ['*']) ∧
    ParseErrorCodes.parse ("7".toList) = .ok ({7} : Finset ℤ) ∧
    ({7} : Finset ℤ) ≠ ∅ :=
  ⟨by decide, by rfl,
    (error_codes_star_and_bases).2.2.2 ("7".toList) (by decide) {7} (by rfl)⟩

/-! ## Claim C7 -/

/-- The example input `a=\x7b1,2\x7d,b=3` of the array-lengths grammar. -/
def alExample : Str := ['a', '=', '\x7b', '1', ',', '2', '\x7d', ',', 'b', '=', '3']

/-- The malformed input `a=\x7b1,2` (unclosed brace). -/
def alBad : Str := ['a', '=', '\x7b', '1', ',', '2']

/-- C7: the array-lengths codec parses `a=\x7b1,2\x7d,b=3` to the map
`a ↦ [1, 2], b ↦ [3]`, and rejects the malformed `a=\x7b1,2` (unclosed
brace) with the invalid-format `ValueError` rather than returning a
partial result. -/
theorem array_lengths_grammar :
    ParseArrayLengths.parse (some alExample) =
      .ok [("a".toList, [(1 : ℤ), 2]), ("b".toList, [(3 : ℤ)])] ∧
    ParseArrayLengths.parse (some alBad) =
      .error (ParseArrayLengths.formatMsg alBad) := by
  constructor
  · rfl
  · rfl

/-! ## Claim C10 -/

/-- C10: the array-lengths codec accepts emptiness of the whole input —
`None`, the empty string and all-whitespace strings all parse to the empty
map without raising — while any other input that fails the entry grammar
raises the invalid-format error, and no parsed entry ever carries an empty
size list. -/
theorem array_lengths_empty_and_no_empty_sizes :
    ParseArrayLengths.parse none = .ok [] ∧
    ParseArrayLengths.parse (some []) = .ok [] ∧
    (∀ s : Str, (∀ c ∈ s, pyIsSpace c = true) →
      ParseArrayLengths.parse (some s) = .ok []) ∧
    (∀ s : Str, s ≠ [] →
      parseEntriesF (s.filter (fun c => !pyIsSpace c)).length
          (s.filter (fun c => !pyIsSpace c)) = none →
      ParseArrayLengths.parse (some s) =
        .error (ParseArrayLengths.formatMsg (s.filter (fun c => !pyIsSpace c)))) ∧
    (∀ (vs : Option Str) (m : List (Str × List ℤ)),
      ParseArrayLengths.parse vs = .ok m → ∀ kv ∈ m, kv.2 ≠ []) := by
  refine ⟨by rfl, by rfl, ?_, ?_, ?_⟩
  · intro s hws
    by_cases hs : s = []
    · rw [hs]
      rfl
    · rw [ParseArrayLengths.parse]
      rw [if_neg hs]
      have hv : s.filter (fun c => !pyIsSpace c) = [] :=
        List.filter_eq_nil_iff.2 (fun c hc => by simp [hws c hc])
      rw [hv]
      rfl
  · intro s hs hgram
    rw [ParseArrayLengths.parse, if_neg hs]
    rw [hgram]
  · intro vs m hm kv hkv
    match vs with
    | none =>
      rw [ParseArrayLengths.parse] at hm
      injection hm with hm
      subst hm
      simp at hkv
    | some s =>
      rw [ParseArrayLengths.parse] at hm
      by_cases hs : s = []
      · rw [if_pos hs] at hm
        injection hm with hm
        subst hm
        simp at hkv
      · rw [if_neg hs] at hm
        cases hgram : parseEntriesF (s.filter (fun c => !pyIsSpace c)).length
            (s.filter (fun c => !pyIsSpace c)) with
        | none =>
          rw [hgram] at hm
          exact absurd hm (by simp)
        | some entries =>
          rw [hgram] at hm
          have hm2 : (if ((entries.map (fun kv =>
                (strip kv.1, ParseArrayLengths.entrySizes kv.2))).any
                (fun kv => kv.2.isEmpty)) = true
              then (Except.error nonEmptyMsg : Except Str (List (Str × List ℤ)))
              else Except.ok (pyDictOf (entries.map (fun kv =>
                (strip kv.1, ParseArrayLengths.entrySizes kv.2))))) =
              Except.ok m := hm
          by_cases hany : ((entries.map (fun kv =>
              (strip kv.1, ParseArrayLengths.entrySizes kv.2))).any
              (fun kv => kv.2.isEmpty)) = true
          · rw [if_pos hany] at hm2
            exact absurd hm2 (by simp)
          · rw [if_neg hany] at hm2
            have hmem : kv ∈ entries.map (fun kv =>
                (strip kv.1, ParseArrayLengths.entrySizes kv.2)) := by
              have hpd : pyDictOf (entries.map (fun kv =>
                  (strip kv.1, ParseArrayLengths.entrySizes kv.2))) = m := by
                injection hm2
              exact mem_pyDictOf (hpd ▸ hkv)
            intro hnil
            apply hany
            rw [List.any_eq_true]
            exact ⟨kv, hmem, by simp [hnil]⟩

/-- Witness for C10: the all-whitespace string parses to the empty map; the
lone key `a` fails the grammar; and a parse that succeeds (on `a=1`) has no
empty size list. -/
theorem array_lengths_empty_and_no_empty_sizes_witness :
    (∀ c ∈ [' ', ' '], pyIsSpace c = true) ∧
    ParseArrayLengths.parse (some [' ', ' ']) = .ok [] ∧
    ParseArrayLengths.parse (some ['a']) =
      .error (ParseArrayLengths.formatMsg ['a']) ∧
    (ParseArrayLengths.parse (some ['a', '=', '1']) =
      .ok [("a".toList, [(1 : ℤ)])] ∧
    ∀ kv ∈ [(("a".toList : Str), [(1 : ℤ)])], kv.2 ≠ []) := by
  have h := array_lengths_empty_and_no_empty_sizes
  refine ⟨by decide, h.2.2.1 [' ', ' '] (by decide), ?_, by rfl, ?_⟩
  · exact h.2.2.2.1 ['a'] (by decide) (by rfl)
  · exact h.2.2.2.2 (some ['a', '=', '1']) _ (by rfl)

/-! ## Round-trip lemmas for the codecs (claim C3) -/

theorem takeWhile_append_exact (p : Char → Bool) (l1 l2 : Str) (c : Char)
    (h1 : ∀ a ∈ l1, p a = true) (hc : p c = false) :
    (l1 ++ c :: l2).takeWhile p = l1 ∧ (l1 ++ c :: l2).dropWhile p = c :: l2 := by
  induction l1 with
  | nil => simp [List.takeWhile, List.dropWhile, hc]
  | cons a l1' ih =>
    have ha : p a = true := h1 a (List.mem_cons_self _ _)
    have ht := ih (fun x hx => h1 x (List.mem_cons_of_mem _ hx))
    constructor
    · show List.takeWhile p (a :: (l1' ++ c :: l2)) = a :: l1'
      rw [List.takeWhile_cons_of_pos ha, ht.1]
    · show List.dropWhile p (a :: (l1' ++ c :: l2)) = c :: l2
      rw [List.dropWhile_cons_of_pos ha, ht.2]

theorem takeWhile_all_sat (p : Char → Bool) (l : Str)
    (h : ∀ a ∈ l, p a = true) : l.takeWhile p = l ∧ l.dropWhile p = [] := by
  induction l with
  | nil => simp
  | cons a l' ih =>
    have ha : p a = true := h a (List.mem_cons_self _ _)
    have ht := ih (fun x hx => h x (List.mem_cons_of_mem _ hx))
    constructor
    · rw [List.takeWhile_cons_of_pos ha, ht.1]
    · rw [List.dropWhile_cons_of_pos ha, ht.2]

theorem pyMapRaise_map {f : β → Option α} {g : α → β} (l : List α)
    (h : ∀ a ∈ l, f (g a) = some a) : pyMapRaise f (l.map g) = some l := by
  induction l with
  | nil => rfl
  | cons a l' ih =>
    rw [List.map_cons, pyMapRaise, h a (List.mem_cons_self _ _),
      ih (fun x hx => h x (List.mem_cons_of_mem _ hx))]

/-- Every character of a rendered integer is a minus sign or a digit. -/
theorem intToDec_chars (n : ℤ) : ∀ c ∈ intToDec n, c = '-' ∨ isDigitCh c = true := by
  rw [intToDec]
  split
  · intro c hc
    rcases List.mem_cons.1 hc with h | h
    · exact Or.inl h
    · exact Or.inr (natToDec_all_digit _ c h)
  · intro c hc
    exact Or.inr (natToDec_all_digit _ c hc)

theorem intToDec_ne_nil (n : ℤ) : intToDec n ≠ [] := by
  rw [intToDec]
  split
  · simp
  · exact natToDec_ne_nil _

theorem intToDec_no_space_comma (n : ℤ) :
    ∀ c ∈ intToDec n, c ≠ ',' ∧ pyIsSpace c = false := by
  intro c hc
  rcases intToDec_chars n c hc with h | h
  · subst h
    exact ⟨by decide, by decide⟩
  · exact ⟨(isDigitCh_spec h).2.2.1, (isDigitCh_spec h).2.2.2.1⟩

/-- C3 helper: the CSV-integer codec round-trips on every non-empty list. -/
theorem csvint_roundtrip (vs : List ℤ) (h : vs ≠ []) :
    ParseCSVInt.parse (ParseCSVInt.unparse vs) = .ok vs := by
  rw [ParseCSVInt.parse, ParseCSVInt.unparse]
  rw [parse_csv_joinSep (vs.map intToDec) (by simpa using h)
    (by intro t ht; obtain ⟨n, -, rfl⟩ := List.mem_map.1 ht; exact intToDec_ne_nil n)
    (by intro t ht; obtain ⟨n, -, rfl⟩ := List.mem_map.1 ht; exact intToDec_no_space_comma n)]
  rw [pyMapRaise_map vs (fun a _ => pyIntDec_intToDec a)]
  show ensure_non_empty vs = .ok vs
  rw [ensure_non_empty, if_neg (by simpa using h)]

/-- The characters of a trace-event tag: non-empty, and free of commas and
whitespace. -/
theorem traceEvent_value_ok (e : TraceEvent) :
    e.value ≠ [] ∧ ∀ c ∈ e.value, c ≠ ',' ∧ pyIsSpace c = false := by
  cases e with
  | LOG =>
    refine ⟨by decide, ?_⟩
    intro c hc
    have hc2 : c ∈ ['L', 'O', 'G'] := hc
    simp only [List.mem_cons, List.not_mem_nil, or_false] at hc2
    rcases hc2 with rfl | rfl | rfl <;> exact ⟨by decide, by decide⟩
  | SSTORE =>
    refine ⟨by decide, ?_⟩
    intro c hc
    have hc2 : c ∈ ['S', 'S', 'T', 'O', 'R', 'E'] := hc
    simp only [List.mem_cons, List.not_mem_nil, or_false] at hc2
    rcases hc2 with rfl | rfl | rfl | rfl | rfl | rfl <;> exact ⟨by decide, by decide⟩
  | SLOAD =>
    refine ⟨by decide, ?_⟩
    intro c hc
    have hc2 : c ∈ ['S', 'L', 'O', 'A', 'D'] := hc
    simp only [List.mem_cons, List.not_mem_nil, or_false] at hc2
    rcases hc2 with rfl | rfl | rfl | rfl | rfl <;> exact ⟨by decide, by decide⟩

/-- C3 helper: the trace-event codec round-trips on every list of tags,
including the empty list. -/
theorem trace_events_roundtrip (es : List TraceEvent) :
    ParseCSVTraceEvent.parse (ParseCSVTraceEvent.unparse es) = .ok es := by
  rw [ParseCSVTraceEvent.parse, ParseCSVTraceEvent.unparse]
  cases es with
  | nil => rfl
  | cons e es' =>
    rw [parse_csv_joinSep ((e :: es').map TraceEvent.value) (by simp)
      (by
        intro t ht
        obtain ⟨x, -, rfl⟩ := List.mem_map.1 ht
        exact (traceEvent_value_ok x).1)
      (by
        intro t ht
        obtain ⟨x, -, rfl⟩ := List.mem_map.1 ht
        exact (traceEvent_value_ok x).2)]
    rw [pyMapRaise_map (e :: es') (fun a _ => by cases a <;> rfl)]

/-- Exact integers at least 1 truncate to their numerator. -/
theorem pyTrunc_int (v : ℚ) (h : v.den = 1) (h0 : 0 ≤ v) : pyTrunc v = v.num := by
  rw [pyTrunc, if_pos h0]
  have hv : ((v.num : ℤ) : ℚ) = v := (Rat.den_eq_one_iff v).1 h
  conv_lhs => rw [← hv]
  rw [Int.floor_intCast]

/-- C3 helper: the duration codec round-trips on values that render exactly,
i.e. whole seconds at least 1 and whole milliseconds below 1 second. -/
theorem timeout_roundtrip (v : ℚ)
    (hdom : (1 ≤ v ∧ v.den = 1) ∨ (0 ≤ v ∧ v < 1 ∧ (v * 1000).den = 1)) :
    ParseTimeout.parse (ParseTimeout.unparse v) = some v := by
  rcases hdom with ⟨h1, hden⟩ | ⟨h0, h1, hden⟩
  · -- whole seconds at least 1, rendered as "<n>s"
    have h0 : (0 : ℚ) ≤ v := le_trans zero_le_one h1
    have htr : pyTrunc v = v.num := pyTrunc_int v hden h0
    have hnum0 : 0 ≤ v.num := Rat.num_nonneg.2 h0
    have hrender : ParseTimeout.unparse v = natToDec v.num.toNat ++ 's' :: [] := by
      rw [ParseTimeout.unparse, if_neg (not_lt.2 h1), htr, intToDec,
        if_neg (by omega)]
      rfl
    have hdig := natToDec_all_digit v.num.toNat
    have htw := takeWhile_append_exact isDigitCh (natToDec v.num.toNat) [] 's'
      hdig (by decide)
    have hns : ∀ c ∈ natToDec v.num.toNat ++ 's' :: [], pyIsSpace c = false := by
      intro c hc
      rcases List.mem_append.1 hc with h | h
      · exact pyIsSpace_of_digit (hdig c h)
      · simp only [List.mem_singleton] at h
        subst h
        rfl
    rw [ParseTimeout.parse, hrender, parse_time, strip_no_space _ hns]
    rw [htw.1, htw.2]
    rw [if_neg (natToDec_ne_nil _), if_neg (by decide), if_neg (by decide),
      if_pos (by decide)]
    rw [decVal_natToDec]
    congr 1
    rw [← (Rat.den_eq_one_iff v).1 hden]
    exact_mod_cast Int.toNat_of_nonneg hnum0
  · -- whole milliseconds below 1 second, rendered as "<m>ms"
    have h0m : (0 : ℚ) ≤ v * 1000 := by positivity
    have htr : pyTrunc (v * 1000) = (v * 1000).num := pyTrunc_int _ hden h0m
    have hnum0 : 0 ≤ (v * 1000).num := Rat.num_nonneg.2 h0m
    have hrender : ParseTimeout.unparse v =
        natToDec (v * 1000).num.toNat ++ 'm' :: 's' :: [] := by
      rw [ParseTimeout.unparse, if_pos h1, htr, intToDec, if_neg (by omega)]
      rfl
    have hdig := natToDec_all_digit (v * 1000).num.toNat
    have htw := takeWhile_append_exact isDigitCh (natToDec (v * 1000).num.toNat)
      ['s'] 'm' hdig (by decide)
    have hns : ∀ c ∈ natToDec (v * 1000).num.toNat ++ 'm' :: 's' :: [],
        pyIsSpace c = false := by
      intro c hc
      rcases List.mem_append.1 hc with h | h
      · exact pyIsSpace_of_digit (hdig c h)
      · rcases List.mem_cons.1 h with h | h
        · subst h; rfl
        · simp only [List.mem_singleton] at h
          subst h; rfl
    rw [ParseTimeout.parse, hrender, parse_time, strip_no_space _ hns]
    rw [htw.1, htw.2]
    rw [if_neg (natToDec_ne_nil _), if_neg (by decide), if_pos (by decide)]
    rw [decVal_natToDec]
    congr 1
    have hcast : (((v * 1000).num.toNat : ℕ) : ℚ) = v * 1000 := by
      rw [← (Rat.den_eq_one_iff (v * 1000)).1 hden]
      exact_mod_cast Int.toNat_of_nonneg hnum0
    rw [hcast, mul_div_assoc]
    norm_num

theorem hex02_all_hex (n : ℕ) : ∀ c ∈ hex02 n, (hexDigitVal c).isSome = true := by
  rw [hex02]
  intro c hc
  split at hc
  · rcases List.mem_cons.1 hc with h | h
    · subst h
      decide
    · exact natToHex_all_hex n c h
  · exact natToHex_all_hex n c hc

/-- The characters of a serialized error-code token `0x..`: no commas, no
whitespace, and the token never equals `*`. -/
theorem hexToken_chars (v : ℤ) (hv : 0 ≤ v) :
    ∀ c ∈ '0' :: 'x' :: fmt02x v, c ≠ ',' ∧ pyIsSpace c = false := by
  have hfmt : fmt02x v = hex02 v.toNat := by
    rw [fmt02x, if_neg (not_lt.2 hv)]
  intro c hc
  rcases List.mem_cons.1 hc with h | h
  · subst h
    exact ⟨by decide, by decide⟩
  · rcases List.mem_cons.1 h with h | h
    · subst h
      exact ⟨by decide, by decide⟩
    · rw [hfmt] at h
      have hhex := hex02_all_hex v.toNat c h
      exact ⟨hexCh_ne hhex (by decide), pyIsSpace_of_hexCh hhex⟩

/-- Parsing a serialized error-code token recovers the code. -/
theorem pyIntBase0_hexToken (v : ℤ) (hv : 0 ≤ v) :
    pyIntBase0 ('0' :: 'x' :: fmt02x v) = some v := by
  have hfmt : fmt02x v = hex02 v.toNat := by
    rw [fmt02x, if_neg (not_lt.2 hv)]
  rw [hfmt]
  show (if ('0' : Char) = '-' then (pyIntBase0Core ('x' :: hex02 v.toNat)).map
        (fun n : ℕ => -(n : ℤ))
      else if ('0' : Char) = '+' then (pyIntBase0Core ('x' :: hex02 v.toNat)).map
        (fun n : ℕ => (n : ℤ))
      else (pyIntBase0Core ('0' :: 'x' :: hex02 v.toNat)).map
        (fun n : ℕ => (n : ℤ))) = some v
  rw [if_neg (by decide), if_neg (by decide)]
  show (hexToNat (hex02 v.toNat)).map (fun n : ℕ => (n : ℤ)) = some v
  rw [hexToNat_hex02]
  simp only [Option.map_some']
  rw [Int.toNat_of_nonneg hv]

/-- C3 helper: the error-codes codec round-trips on every finite set of
nonnegative codes (the domain its `0x%02x` rendering is written for). -/
theorem error_codes_roundtrip (s : Finset ℤ) (hpos : ∀ x ∈ s, 0 ≤ x) :
    ParseErrorCodes.parse (ParseErrorCodes.unparse s) = .ok s := by
  by_cases hemp : s = ∅
  · subst hemp
    rfl
  · rw [ParseErrorCodes.unparse, if_neg hemp]
    have hsort : (s.sort (· ≤ ·)).toFinset = s := Finset.sort_toFinset _ s
    have hsne : s.sort (· ≤ ·) ≠ [] := by
      intro h
      apply hemp
      rw [← hsort, h]
      rfl
    obtain ⟨v0, l0, hl0⟩ : ∃ v0 l0, s.sort (· ≤ ·) = v0 :: l0 := by
      cases h : s.sort (· ≤ ·) with
      | nil => exact absurd h hsne
      | cons v0 l0 => exact ⟨v0, l0, rfl⟩
    have hmem_pos : ∀ x ∈ s.sort (· ≤ ·), 0 ≤ x := by
      intro x hx
      exact hpos x ((Finset.mem_sort _).1 hx)
    have htokchars : ∀ t ∈ (s.sort (· ≤ ·)).map (fun v => '0' :: 'x' :: fmt02x v),
        ∀ c ∈ t, c ≠ ',' ∧ pyIsSpace c = false := by
      intro t ht
      obtain ⟨x, hx, rfl⟩ := List.mem_map.1 ht
      exact hexToken_chars x (hmem_pos x hx)
    have hnospace : ∀ c ∈ joinSep [','] ((s.sort (· ≤ ·)).map
        (fun v => '0' :: 'x' :: fmt02x v)), pyIsSpace c = false := by
      apply joinSep_forall
      · intro c hc
        simp only [List.mem_singleton] at hc
        subst hc
        rfl
      · intro t ht c hc
        exact (htokchars t ht c hc).2
    have hne_star : joinSep [','] ((s.sort (· ≤ ·)).map
        (fun v => '0' :: 'x' :: fmt02x v)) ≠ ['*'] := by
      rw [hl0, List.map_cons]
      have hhead : ∃ r, joinSep [','] (('0' :: 'x' :: fmt02x v0) ::
          l0.map (fun v => '0' :: 'x' :: fmt02x v)) = '0' :: 'x' :: fmt02x v0 ++ r := by
        cases hm : l0.map (fun v => '0' :: 'x' :: fmt02x v) with
        | nil => exact ⟨[], by simp [joinSep]⟩
        | cons u ts' =>
          refine ⟨[','] ++ joinSep [','] (u :: ts'), ?_⟩
          rw [show joinSep [','] (('0' :: 'x' :: fmt02x v0) :: u :: ts') =
            ('0' :: 'x' :: fmt02x v0) ++ [','] ++ joinSep [','] (u :: ts') from rfl]
          rw [List.append_assoc]
      obtain ⟨r, hr⟩ := hhead
      rw [hr]
      intro h
      have := List.head_eq_of_cons_eq h
      exact absurd this (by decide)
    simp only [ParseErrorCodes.parse]
    rw [strip_no_space _ hnospace, if_neg hne_star]
    rw [parse_csv_joinSep _ (by simp [hl0]) (by
        intro t ht
        obtain ⟨x, hx, rfl⟩ := List.mem_map.1 ht
        simp) htokchars]
    rw [pyMapRaise_map (s.sort (· ≤ ·))
      (fun x hx => pyIntBase0_hexToken x (hmem_pos x hx))]
    show (if (s.sort (· ≤ ·)).toFinset = ∅ then
        (Except.error nonEmptyMsg : Except Str (Finset ℤ))
      else Except.ok (s.sort (· ≤ ·)).toFinset) = Except.ok s
    rw [if_neg (by rw [hsort]; exact hemp), hsort]

/-- Parsing one rendered entry from the front of a string: the key, the raw
size text and the remainder come back exactly. -/
theorem parseEntry_exact (c : Char) (k' inner tail : Str)
    (hk2 : ∀ x ∈ c :: k', isALKeyChar x = true)
    (hi1 : inner ≠ []) (hi2 : ∀ x ∈ inner, isDigitOrComma x = true) :
    parseEntry (c :: (k' ++ '=' :: '\x7b' :: (inner ++ '\x7d' :: tail))) =
      some (c :: k', inner, tail) := by
  have hform : c :: (k' ++ '=' :: '\x7b' :: (inner ++ '\x7d' :: tail)) =
      (c :: k') ++ '=' :: '\x7b' :: (inner ++ '\x7d' :: tail) := rfl
  rw [hform]
  have htk := takeWhile_append_exact isALKeyChar (c :: k')
    ('\x7b' :: (inner ++ '\x7d' :: tail)) '=' hk2 (by decide)
  have hti := takeWhile_append_exact isDigitOrComma inner tail '\x7d' hi2 (by decide)
  rw [parseEntry, htk.1, htk.2, if_neg (by simp)]
  show (if (inner ++ '\x7d' :: tail).takeWhile isDigitOrComma = [] then none
      else match (inner ++ '\x7d' :: tail).dropWhile isDigitOrComma with
        | '\x7d' :: s5 =>
          some (c :: k', (inner ++ '\x7d' :: tail).takeWhile isDigitOrComma, s5)
        | _ => none) = some (c :: k', inner, tail)
  rw [hti.1, hti.2, if_neg hi1]
  rfl

/-- The step equation of `parseEntriesF` on a non-empty string. -/
theorem parseEntriesF_cons (f : ℕ) (c : Char) (rest : Str) :
    parseEntriesF (f + 1) (c :: rest) =
      match parseEntry (c :: rest) with
      | none => none
      | some (k, inner, r) =>
        match r with
        | [] => some [(k, inner)]
        | ',' :: rest2 =>
          match parseEntriesF f rest2 with
          | none => none
          | some es => some ((k, inner) :: es)
        | _ => none := rfl

/-- The rendered size text of a non-empty list of nonnegative sizes is a
non-empty run of digits and commas. -/
theorem innerStr_chars (vs : List ℤ) (h1 : vs ≠ []) (h2 : ∀ x ∈ vs, 0 ≤ x) :
    joinSep [','] (vs.map intToDec) ≠ [] ∧
    ∀ x ∈ joinSep [','] (vs.map intToDec), isDigitOrComma x = true := by
  constructor
  · cases hv : vs with
    | nil => exact absurd hv h1
    | cons a vs' =>
      cases hvs' : vs' with
      | nil =>
        show intToDec a ≠ []
        exact intToDec_ne_nil a
      | cons b vs'' =>
        show intToDec a ++ [','] ++ joinSep [','] ((b :: vs'').map intToDec) ≠ []
        simp [intToDec_ne_nil a]
  · apply joinSep_forall
    · intro x hx
      simp only [List.mem_singleton] at hx
      subst hx
      rfl
    · intro t ht x hx
      obtain ⟨n, hn, rfl⟩ := List.mem_map.1 ht
      rcases intToDec_chars n x hx with h | h
      · exfalso
        have : intToDec n = natToDec n.toNat := by
          rw [intToDec, if_neg (not_lt.2 (h2 n hn))]
        rw [this] at hx
        have := natToDec_all_digit n.toNat x hx
        subst h
        exact absurd this (by decide)
      · rw [isDigitOrComma, h]
        rfl

/-- Every character of a rendered array-lengths string is non-whitespace
(keys by hypothesis; delimiters and digit/sign characters by computation),
so the whitespace-removal pass leaves the rendering unchanged. -/
theorem unparse_no_space (d : List (Str × List ℤ))
    (hk2 : ∀ kv ∈ d, ∀ c ∈ kv.1, pyIsSpace c = false) :
    ∀ c ∈ ParseArrayLengths.unparse d, pyIsSpace c = false := by
  rw [ParseArrayLengths.unparse]
  apply joinSep_forall
  · intro x hx
    simp only [List.mem_singleton] at hx
    subst hx
    rfl
  · intro t ht c hc
    obtain ⟨kv, hkv, rfl⟩ := List.mem_map.1 ht
    have hc2 : c ∈ (kv.1 ++ '=' :: '\x7b' ::
        joinSep [','] (kv.2.map intToDec)) ++ ['\x7d'] := hc
    rcases List.mem_append.1 hc2 with h1 | h1
    · rcases List.mem_append.1 h1 with h2 | h2
      · exact hk2 kv hkv c h2
      · rcases List.mem_cons.1 h2 with h3 | h3
        · subst h3; rfl
        · rcases List.mem_cons.1 h3 with h4 | h4
          · subst h4; rfl
          · refine joinSep_forall (P := fun ch => pyIsSpace ch = false)
              [','] (kv.2.map intToDec) ?_ ?_ c h4
            · intro x hx
              simp only [List.mem_singleton] at hx
              subst hx
              rfl
            · intro t ht x hx
              obtain ⟨n, -, rfl⟩ := List.mem_map.1 ht
              exact (intToDec_no_space_comma n x hx).2
    · simp only [List.mem_singleton] at h1
      subst h1
      rfl

theorem unparse_cons_nil (kv : Str × List ℤ) :
    ParseArrayLengths.unparse [kv] =
      kv.1 ++ '=' :: '\x7b' :: (joinSep [','] (kv.2.map intToDec) ++ '\x7d' :: []) := by
  show (kv.1 ++ '=' :: '\x7b' :: joinSep [','] (kv.2.map intToDec)) ++ ['\x7d'] = _
  simp only [List.append_assoc, List.cons_append, List.nil_append]

theorem unparse_cons_cons (kv u : Str × List ℤ) (ts : List (Str × List ℤ)) :
    ParseArrayLengths.unparse (kv :: u :: ts) =
      kv.1 ++ '=' :: '\x7b' :: (joinSep [','] (kv.2.map intToDec) ++ '\x7d' ::
        ',' :: ParseArrayLengths.unparse (u :: ts)) := by
  show ((kv.1 ++ '=' :: '\x7b' :: joinSep [','] (kv.2.map intToDec)) ++ ['\x7d'])
      ++ [','] ++ ParseArrayLengths.unparse (u :: ts) = _
  simp only [List.append_assoc, List.cons_append, List.nil_append]

/-- The grammar check and extraction accept a rendered dict exactly,
yielding each key with its raw size text. -/
theorem parseEntriesF_unparse (d : List (Str × List ℤ))
    (hk1 : ∀ kv ∈ d, kv.1 ≠ [])
    (hk2 : ∀ kv ∈ d, ∀ c ∈ kv.1, isALKeyChar c = true)
    (hv1 : ∀ kv ∈ d, kv.2 ≠ [])
    (hv2 : ∀ kv ∈ d, ∀ x ∈ kv.2, 0 ≤ x) :
    ∀ fuel, d.length ≤ fuel →
    parseEntriesF fuel (ParseArrayLengths.unparse d) =
      some (d.map (fun kv => (kv.1, joinSep [','] (kv.2.map intToDec)))) := by
  induction d with
  | nil =>
    intro fuel _
    cases fuel <;> rfl
  | cons kv d' ih =>
    intro fuel hf
    obtain ⟨f, rfl⟩ : ∃ f, fuel = f + 1 :=
      ⟨fuel - 1, by simp only [List.length_cons] at hf; omega⟩
    obtain ⟨c, k', hck⟩ : ∃ c k', kv.1 = c :: k' := by
      cases h : kv.1 with
      | nil => exact absurd h (hk1 kv (List.mem_cons_self _ _))
      | cons c k' => exact ⟨c, k', rfl⟩
    have hkchars : ∀ x ∈ c :: k', isALKeyChar x = true := by
      rw [← hck]
      exact hk2 kv (List.mem_cons_self _ _)
    have hinner := innerStr_chars kv.2 (hv1 kv (List.mem_cons_self _ _))
      (hv2 kv (List.mem_cons_self _ _))
    cases d' with
    | nil =>
      rw [unparse_cons_nil, hck]
      rw [show (c :: k') ++ '=' :: '\x7b' ::
          (joinSep [','] (kv.2.map intToDec) ++ '\x7d' :: []) =
        c :: (k' ++ '=' :: '\x7b' ::
          (joinSep [','] (kv.2.map intToDec) ++ '\x7d' :: [])) from rfl]
      rw [parseEntriesF_cons f c _]
      rw [parseEntry_exact c k' _ [] hkchars hinner.1 hinner.2]
      have hR : [kv].map (fun kv => (kv.1, joinSep [','] (kv.2.map intToDec))) =
          [(c :: k', joinSep [','] (kv.2.map intToDec))] := by
        rw [List.map_cons, List.map_nil, hck]
      rw [hR]
    | cons u ts =>
      rw [unparse_cons_cons, hck]
      rw [show (c :: k') ++ '=' :: '\x7b' ::
          (joinSep [','] (kv.2.map intToDec) ++ '\x7d' ::
            ',' :: ParseArrayLengths.unparse (u :: ts)) =
        c :: (k' ++ '=' :: '\x7b' ::
          (joinSep [','] (kv.2.map intToDec) ++ '\x7d' ::
            ',' :: ParseArrayLengths.unparse (u :: ts))) from rfl]
      rw [parseEntriesF_cons f c _]
      rw [parseEntry_exact c k' _ (',' :: ParseArrayLengths.unparse (u :: ts))
        hkchars hinner.1 hinner.2]
      have hih := ih
        (fun x hx => hk1 x (List.mem_cons_of_mem _ hx))
        (fun x hx => hk2 x (List.mem_cons_of_mem _ hx))
        (fun x hx => hv1 x (List.mem_cons_of_mem _ hx))
        (fun x hx => hv2 x (List.mem_cons_of_mem _ hx))
        f (by simp only [List.length_cons] at hf ⊢; omega)
      show (match parseEntriesF f (ParseArrayLengths.unparse (u :: ts)) with
        | none => none
        | some es => some ((c :: k', joinSep [','] (kv.2.map intToDec)) :: es)) =
        some ((kv :: u :: ts).map (fun kv => (kv.1, joinSep [','] (kv.2.map intToDec))))
      rw [hih]
      show some ((c :: k', joinSep [','] (kv.2.map intToDec)) ::
          (u :: ts).map (fun kv => (kv.1, joinSep [','] (kv.2.map intToDec)))) =
        some ((kv.1, joinSep [','] (kv.2.map intToDec)) ::
          (u :: ts).map (fun kv => (kv.1, joinSep [','] (kv.2.map intToDec))))
      rw [hck]

/-- Re-reading the rendered size text recovers the sizes. -/
theorem entrySizes_roundtrip (vs : List ℤ) (h1 : vs ≠ []) (h2 : ∀ x ∈ vs, 0 ≤ x) :
    ParseArrayLengths.entrySizes (joinSep [','] (vs.map intToDec)) = vs := by
  rw [ParseArrayLengths.entrySizes]
  rw [parse_csv_joinSep (vs.map intToDec) (by simpa using h1)
    (fun t ht => by
      obtain ⟨n, -, rfl⟩ := List.mem_map.1 ht
      exact intToDec_ne_nil n)
    (fun t ht => by
      obtain ⟨n, -, rfl⟩ := List.mem_map.1 ht
      exact intToDec_no_space_comma n)]
  rw [List.map_map]
  have hcong := List.map_congr_left (l := vs)
    (f := (fun t => ((decVal t : ℕ) : ℤ)) ∘ intToDec) (g := id)
    (fun x hx => by
      show ((decVal (intToDec x) : ℕ) : ℤ) = x
      rw [intToDec, if_neg (not_lt.2 (h2 x hx)), decVal_natToDec,
        Int.toNat_of_nonneg (h2 x hx)])
  rw [hcong, List.map_id]

theorem pyDictInsert_append (d : List (Str × α)) (k : Str) (v : α)
    (h : ∀ kv ∈ d, kv.1 ≠ k) : pyDictInsert d k v = d ++ [(k, v)] := by
  rw [pyDictInsert, if_neg]
  intro hany
  rw [List.any_eq_true] at hany
  obtain ⟨kv, hkv, hb⟩ := hany
  exact h kv hkv (by simpa using hb)

theorem pyDictOf_nodup_aux (l : List (Str × α)) :
    ∀ acc : List (Str × α),
    (∀ kv ∈ l, ∀ kv' ∈ acc, kv.1 ≠ kv'.1) →
    (l.map (fun kv => kv.1)).Nodup →
    l.foldl (fun d p => pyDictInsert d p.1 p.2) acc = acc ++ l := by
  induction l with
  | nil =>
    intro acc _ _
    simp
  | cons a l' ih =>
    intro acc hdisj hnodup
    rw [List.foldl_cons]
    have hnd := List.nodup_cons.1 hnodup
    have hins : pyDictInsert acc a.1 a.2 = acc ++ [(a.1, a.2)] :=
      pyDictInsert_append acc a.1 a.2
        (fun kv hkv => (hdisj a (List.mem_cons_self _ _) kv hkv).symm)
    rw [hins]
    rw [ih (acc ++ [(a.1, a.2)]) ?_ hnd.2]
    · rw [List.append_assoc]
      rfl
    · intro kv hkv kv' hkv'
      rcases List.mem_append.1 hkv' with h1 | h1
      · exact hdisj kv (List.mem_cons_of_mem _ hkv) kv' h1
      · simp only [List.mem_singleton] at h1
        subst h1
        intro heq
        have heq2 : kv.1 = a.1 := heq
        apply hnd.1
        show a.1 ∈ List.map (fun kv => kv.1) l'
        rw [← heq2]
        exact List.mem_map_of_mem (fun kv => kv.1) hkv

/-- A key-distinct pair list is its own Python dict. -/
theorem pyDictOf_nodup (l : List (Str × α))
    (h : (l.map (fun kv => kv.1)).Nodup) : pyDictOf l = l := by
  rw [pyDictOf, pyDictOf_nodup_aux l [] (by simp) h]
  rfl

theorem length_le_joinSep (ts : List Str) (h : ∀ t ∈ ts, t ≠ []) :
    ts.length ≤ (joinSep [','] ts).length := by
  induction ts with
  | nil => simp [joinSep]
  | cons t ts' ih =>
    cases ts' with
    | nil =>
      show 1 ≤ t.length
      have := h t (List.mem_cons_self _ _)
      cases t with
      | nil => exact absurd rfl this
      | cons c cs => simp
    | cons u ts'' =>
      show (t :: u :: ts'').length ≤
        (t ++ [','] ++ joinSep [','] (u :: ts'')).length
      have hih := ih (fun x hx => h x (List.mem_cons_of_mem _ hx))
      have ht : 1 ≤ t.length := by
        have := h t (List.mem_cons_self _ _)
        cases t with
        | nil => exact absurd rfl this
        | cons c cs => simp
      simp only [List.length_append, List.length_cons, List.length_singleton] at hih ⊢
      omega

/-- C3 helper: the array-lengths codec round-trips on every dict in its
valid domain: distinct non-empty keys made of key characters with no
whitespace, and non-empty lists of nonnegative sizes. -/
theorem array_lengths_roundtrip (d : List (Str × List ℤ))
    (hnodup : (d.map (fun kv => kv.1)).Nodup)
    (hk1 : ∀ kv ∈ d, kv.1 ≠ [])
    (hk2 : ∀ kv ∈ d, ∀ c ∈ kv.1, isALKeyChar c = true ∧ pyIsSpace c = false)
    (hv1 : ∀ kv ∈ d, kv.2 ≠ [])
    (hv2 : ∀ kv ∈ d, ∀ x ∈ kv.2, 0 ≤ x) :
    ParseArrayLengths.parse (some (ParseArrayLengths.unparse d)) = .ok d := by
  cases hd : d with
  | nil => rfl
  | cons kv0 d0 =>
    rw [← hd]
    have hdne : d ≠ [] := by rw [hd]; simp
    have hUne : ParseArrayLengths.unparse d ≠ [] := by
      rw [hd, ParseArrayLengths.unparse]
      cases d0 with
      | nil =>
        show (kv0.1 ++ '=' :: '\x7b' :: joinSep [','] (kv0.2.map intToDec))
          ++ ['\x7d'] ≠ []
        simp
      | cons u ts =>
        show ((kv0.1 ++ '=' :: '\x7b' :: joinSep [','] (kv0.2.map intToDec))
          ++ ['\x7d']) ++ [','] ++ _ ≠ []
        simp
    have hfilter : (ParseArrayLengths.unparse d).filter (fun c => !pyIsSpace c) =
        ParseArrayLengths.unparse d :=
      List.filter_eq_self.2 (fun c hc => by
        simp [unparse_no_space d (fun kv hkv c hc => (hk2 kv hkv c hc).2) c hc])
    have hlen : d.length ≤ (ParseArrayLengths.unparse d).length := by
      rw [ParseArrayLengths.unparse]
      have := length_le_joinSep (d.map (fun kv =>
        kv.1 ++ '=' :: '\x7b' :: joinSep [','] (kv.2.map intToDec) ++ ['\x7d']))
        (fun t ht => by
          obtain ⟨x, -, rfl⟩ := List.mem_map.1 ht
          show (x.1 ++ '=' :: '\x7b' :: joinSep [','] (x.2.map intToDec))
            ++ ['\x7d'] ≠ []
          simp)
      simpa using this
    have hgram := parseEntriesF_unparse d hk1
      (fun kv hkv c hc => (hk2 kv hkv c hc).1) hv1 hv2
      (ParseArrayLengths.unparse d).length hlen
    rw [ParseArrayLengths.parse, if_neg hUne, hfilter, hgram]
    have hsized : (d.map (fun kv => (kv.1, joinSep [','] (kv.2.map intToDec)))).map
        (fun kv => (strip kv.1, ParseArrayLengths.entrySizes kv.2)) = d := by
      rw [List.map_map]
      have hcong := List.map_congr_left (l := d)
        (f := (fun kv => (strip kv.1, ParseArrayLengths.entrySizes kv.2)) ∘
          (fun kv => (kv.1, joinSep [','] (kv.2.map intToDec))))
        (g := id)
        (fun kv hkv => by
          show (strip kv.1, ParseArrayLengths.entrySizes
            (joinSep [','] (kv.2.map intToDec))) = kv
          rw [strip_no_space kv.1 (fun c hc => (hk2 kv hkv c hc).2),
            entrySizes_roundtrip kv.2 (hv1 kv hkv) (hv2 kv hkv)])
      rw [hcong, List.map_id]
    show (if ((d.map (fun kv => (kv.1, joinSep [','] (kv.2.map intToDec)))).map
          (fun kv => (strip kv.1, ParseArrayLengths.entrySizes kv.2))).any
          (fun kv => kv.2.isEmpty) = true
      then (Except.error nonEmptyMsg : Except Str (List (Str × List ℤ)))
      else Except.ok (pyDictOf ((d.map (fun kv =>
        (kv.1, joinSep [','] (kv.2.map intToDec)))).map
          (fun kv => (strip kv.1, ParseArrayLengths.entrySizes kv.2))))) =
      Except.ok d
    rw [hsized, if_neg, pyDictOf_nodup d hnodup]
    intro hany
    rw [List.any_eq_true] at hany
    obtain ⟨kv, hkv, hb⟩ := hany
    exact hv1 kv hkv (by simpa using hb)

/-! ## Claim C3 -/

/-- C3 counterexample: `3/2` seconds is in the duration codec's valid
resolved-value domain (it is what `parse("1500ms")` returns), yet its
serialization truncates to `"1s"`, which parses back to `1 ≠ 3/2`.  So
`parse(serialize(v)) == v` fails on the codec's valid domain. -/
theorem codecs_roundtrip_counterexample :
    ParseTimeout.parse ("1500ms".toList) = some (3 / 2 : ℚ) ∧
    ParseTimeout.unparse (3 / 2 : ℚ) = "1s".toList ∧
    ParseTimeout.parse (ParseTimeout.unparse (3 / 2 : ℚ)) = some (1 : ℚ) ∧
    (3 / 2 : ℚ) ≠ 1 := by
  have hun : ParseTimeout.unparse (3 / 2 : ℚ) = "1s".toList := by
    have htr : pyTrunc (3 / 2 : ℚ) = 1 := by
      rw [pyTrunc, if_pos (by norm_num), Int.floor_eq_iff]
      norm_num
    have hone : intToDec 1 = ['1'] := by
      rw [intToDec, if_neg (by norm_num)]
      show natToDec 1 = ['1']
      rw [natToDec, dif_pos (by norm_num)]
      decide
    rw [ParseTimeout.unparse, if_neg (by norm_num), htr, hone]
    rfl
  refine ⟨?_, hun, ?_, by norm_num⟩
  · have h1 : ParseTimeout.parse ("1500ms".toList) =
        some (((1500 : ℕ) : ℚ) / 1000) := rfl
    rw [h1]
    norm_num
  · rw [hun]
    have h2 : ParseTimeout.parse ("1s".toList) = some (((1 : ℕ) : ℚ)) := rfl
    rw [h2]
    norm_num

/-- C3 (amended): `parse(serialize(v)) == v` holds for the comma-separated
integer list codec on every non-empty list, for the trace-event codec on
every tag list, for the integer-set codec on every set of nonnegative codes
(the domain of its `0x%02x` rendering), and for the array-lengths codec on
every dict with distinct, non-empty, whitespace-free keys made of key
characters and non-empty lists of nonnegative sizes; for the
duration/timeout codec it holds only on values its rendering represents
exactly — an integer number of seconds when `v ≥ 1`, or an integer number
of milliseconds when `0 ≤ v < 1` — the truncation in `unparse` breaking
the round trip elsewhere. -/
theorem codecs_roundtrip :
    (∀ v : ℚ, (1 ≤ v ∧ v.den = 1) ∨ (0 ≤ v ∧ v < 1 ∧ (v * 1000).den = 1) →
      ParseTimeout.parse (ParseTimeout.unparse v) = some v) ∧
    (∀ vs : List ℤ, vs ≠ [] →
      ParseCSVInt.parse (ParseCSVInt.unparse vs) = .ok vs) ∧
    (∀ es : List TraceEvent,
      ParseCSVTraceEvent.parse (ParseCSVTraceEvent.unparse es) = .ok es) ∧
    (∀ s : Finset ℤ, (∀ x ∈ s, 0 ≤ x) →
      ParseErrorCodes.parse (ParseErrorCodes.unparse s) = .ok s) ∧
    (∀ d : List (Str × List ℤ),
      (d.map (fun kv => kv.1)).Nodup →
      (∀ kv ∈ d, kv.1 ≠ []) →
      (∀ kv ∈ d, ∀ c ∈ kv.1, isALKeyChar c = true ∧ pyIsSpace c = false) →
      (∀ kv ∈ d, kv.2 ≠ []) →
      (∀ kv ∈ d, ∀ x ∈ kv.2, 0 ≤ x) →
      ParseArrayLengths.parse (some (ParseArrayLengths.unparse d)) = .ok d) :=
  ⟨timeout_roundtrip, csvint_roundtrip, trace_events_roundtrip,
    error_codes_roundtrip, array_lengths_roundtrip⟩

/-- Witness for C3 (amended), one concrete round trip per codec. -/
theorem codecs_roundtrip_witness :
    ParseTimeout.parse (ParseTimeout.unparse (5 : ℚ)) = some (5 : ℚ) ∧
    ParseTimeout.parse (ParseTimeout.unparse (1 / 2 : ℚ)) = some (1 / 2 : ℚ) ∧
    ParseCSVInt.parse (ParseCSVInt.unparse [0, 1, 2]) = .ok [(0 : ℤ), 1, 2] ∧
    ParseCSVTraceEvent.parse (ParseCSVTraceEvent.unparse
      [TraceEvent.LOG, TraceEvent.SLOAD]) = .ok [TraceEvent.LOG, TraceEvent.SLOAD] ∧
    ParseErrorCodes.parse (ParseErrorCodes.unparse ({1} : Finset ℤ)) =
      .ok ({1} : Finset ℤ) ∧
    ParseArrayLengths.parse (some (ParseArrayLengths.unparse
      [("a".toList, [1, 2])])) = .ok [("a".toList, [(1 : ℤ), 2])] :=
  ⟨codecs_roundtrip.1 5 (Or.inl ⟨by norm_num, Rat.den_ofNat 5⟩),
   codecs_roundtrip.1 (1 / 2) (Or.inr ⟨by norm_num, by norm_num,
     by rw [show (1 / 2 : ℚ) * 1000 = (500 : ℚ) from by norm_num]
        exact Rat.den_ofNat 500⟩),
   codecs_roundtrip.2.1 [0, 1, 2] (by decide),
   codecs_roundtrip.2.2.1 [TraceEvent.LOG, TraceEvent.SLOAD],
   codecs_roundtrip.2.2.2.1 {1} (by decide),
   codecs_roundtrip.2.2.2.2 [("a".toList, [1, 2])] (by decide) (by decide)
     (by decide) (by decide) (by decide)⟩
